import Mathlib

/-!
# The file-descriptor statistics collector (`collector/filefd_linux.go`)

A shallow embedding of `parseFileFDStats`, `getFileFDStats`,
`NewFileFDStatCollector` and `fileFDStatCollector.Update`, and the properties of
them that the specification states.

Conventions of the embedding.

* Go strings are Lean strings. The code only compares them, splits them on the
  tab character and concatenates them.
* A Go `map[string]T` is a list of (key, value) entries (`GoMap`): a lookup takes
  the first entry of a key, an assignment replaces that entry or appends a new one.
  The order in which `range` visits a map is not fixed by Go; every `range` of the
  source takes its order from a `RangeOrder`, which rearranges the entries.
* A call ends in one of three ways (`Result`): it returns a value, it returns a
  non-nil `error`, or it panics.
* A gauge is a record of its options and its current value; `Set` changes the value.
  Which gauge objects exist is followed through the log of the calls of
  `prometheus.NewGauge` that `Update` makes: an entry of the registry for which no
  call is logged is the object it was before.
* `strconv.ParseFloat`, `os.Open`, `procFilePath` and the constant `Namespace` are
  not defined in this file of the repository; they are parameters (`Host`,
  `Cycle`).
-/

namespace FileFD

/-! ## Values of the Go runtime and libraries the source uses -/

/-- A Go `error` value, kept as the text its `Error()` method returns. -/
structure GoError where
  Error : String
deriving DecidableEq, Repr

/-- A run-time panic of the Go runtime. -/
inductive Panic where
  /-- Indexing a slice of length `length` at `index`, with `length ≤ index`. -/
  | indexOutOfRange (index length : Nat)
  /-- A method call through a nil interface value (the zero value a map yields for an
  absent key). -/
  | nilDereference
deriving DecidableEq, Repr

deriving instance DecidableEq for Except

/-- How a call of a Go function with results `(α, error)` ends. -/
inductive Result (α : Type) where
  | ok (a : α)
  | err (e : GoError)
  | panic (p : Panic)
deriving DecidableEq, Repr

/-- A float64 value, kept as its IEEE 754 binary64 bit pattern. The source never
computes with such a value: it gets one from `strconv.ParseFloat` and stores it. -/
structure Float64 where
  bits : Nat
deriving DecidableEq, Repr

/-- The float64 value `+0.0`, the value of a gauge that was never set. -/
def Float64.zero : Float64 := ⟨0⟩

/-- An `io.Reader`, as the bytes it delivers before it ends, and how it ends: at end of
file (`err = none`) or with a read error. -/
structure Reader where
  data : String
  err : Option GoError
deriving DecidableEq, Repr

/-! ## `bufio.Scanner` with the default split function `bufio.ScanLines` -/

/-- The constant `bufio.MaxScanTokenSize`: the size of the largest buffer a scanner
allocates by default. -/
def MaxScanTokenSize : Nat := 64 * 1024

/-- The error `bufio.ErrTooLong`. -/
def ErrTooLong : GoError := ⟨"bufio.Scanner: token too long"⟩

/-- The helper `dropCR` of `bufio.ScanLines`: drops one trailing carriage return. -/
def dropCR (l : List Char) : List Char :=
  if l.getLast? = some '\r' then l.dropLast else l

/-- The state of a `bufio.Scanner` that the source can observe: the current token and
the first error met. -/
structure Scanner where
  token : String
  err : Option GoError
deriving DecidableEq, Repr

/-- The first `scanner.Scan()` of `bufio.NewScanner(r)`. The token is the text before
the first newline, or all the text when it has no newline and is not empty, without
one trailing carriage return. When the buffer, which holds `MaxScanTokenSize` bytes at
most, fills up before a newline is seen, the scan stops with `ErrTooLong` and no token.
A read error ends the input as the end of file does and is kept in the scanner. -/
def Scan (r : Reader) : Scanner :=
  let pre := r.data.data.takeWhile (fun c => c ≠ '\n')
  if MaxScanTokenSize ≤ (String.mk pre).utf8ByteSize then
    ⟨"", some ErrTooLong⟩
  else
    ⟨String.mk (dropCR pre), r.err⟩

/-- The method `scanner.Text()`: the current token, the empty string when the scan gave none. -/
def Scanner.Text (s : Scanner) : String := s.token

/-! ## `strings.Split` with a separator of one character -/

/-- Splitting a list of characters at every occurrence of `sep`. -/
def splitChars (sep : Char) : List Char → List (List Char)
  | [] => [[]]
  | c :: cs =>
    if c = sep then [] :: splitChars sep cs
    else
      match splitChars sep cs with
      | [] => [[c]]
      | f :: fs => (c :: f) :: fs

/-- The call `strings.Split(s, sep)` for a separator `sep` of one character: the
substrings of `s` between the occurrences of `sep`; one more than there are
occurrences. -/
def Split (s : String) (sep : Char) : List String :=
  (splitChars sep s.data).map String.mk

/-! ## Go maps with string keys -/

/-- A `map[string]α`: its entries, one per key. -/
abbrev GoMap (α : Type) := List (String × α)

namespace GoMap

variable {α : Type}

/-- The lookup `v, ok := m[k]`. -/
def get? (m : GoMap α) (k : String) : Option α :=
  match m with
  | [] => none
  | (k', v) :: rest => if k' = k then some v else get? rest k

/-- The assignment `m[k] = v`. -/
def set (m : GoMap α) (k : String) (v : α) : GoMap α :=
  match m with
  | [] => [(k, v)]
  | (k', v') :: rest => if k' = k then (k, v) :: rest else (k', v') :: set rest k v

/-- The keys of the map. -/
def keys (m : GoMap α) : List String := m.map Prod.fst

end GoMap

/-- The order in which one `range` statement visits the entries of a map: Go leaves it
unspecified, so it is any rearrangement of the entries. -/
structure RangeOrder (α : Type) where
  visit : List (String × α) → List (String × α)
  perm : ∀ l, (visit l).Perm l

/-! ## `parseFileFDStats` and `getFileFDStats` -/

/-- Indexing `line[i]` of a slice of strings. -/
def index (line : List String) (i : Nat) : Result String :=
  match line.get? i with
  | some s => .ok s
  | none => .panic (.indexOutOfRange i line.length)

/-- The function `parseFileFDStats(r, fileName)`. -/
def parseFileFDStats (r : Reader) (_fileName : String) : Result (GoMap String) :=
  let scanner := Scan r
  let line := Split scanner.Text '\t'
  let fileFDStat : GoMap String := []
  match index line 0 with
  | .ok l0 =>
    let fileFDStat := fileFDStat.set "allocated" l0
    match index line 2 with
    | .ok l2 =>
      let fileFDStat := fileFDStat.set "maximum" l2
      .ok fileFDStat
    | .err e => .err e
    | .panic p => .panic p
  | .err e => .err e
  | .panic p => .panic p

/-- The function `getFileFDStats(fileName)`; `osOpen` is `os.Open` on the file system
at the time of the call. -/
def getFileFDStats (osOpen : String → Except GoError Reader) (fileName : String) :
    Result (GoMap String) :=
  match osOpen fileName with
  | .error err => .err err
  | .ok file => parseFileFDStats file fileName

/-! ## The gauges of the Prometheus client library -/

/-- The options `prometheus.GaugeOpts` that the source fills in. -/
structure GaugeOpts where
  Namespace : String
  Subsystem : String
  Name : String
  Help : String
deriving DecidableEq, Repr

/-- A `prometheus.Gauge`: the options it was made with and its current value. -/
structure Gauge where
  opts : GaugeOpts
  value : Float64
deriving DecidableEq, Repr

/-- The call `prometheus.NewGauge(opts)`: a gauge with value zero. -/
def NewGauge (opts : GaugeOpts) : Gauge := ⟨opts, Float64.zero⟩

/-- The method `g.Set(v)`. -/
def Gauge.Set (g : Gauge) (v : Float64) : Gauge := { g with value := v }

/-! ## The collector -/

/-- The constant `fileFDStatSubsystem`. -/
def fileFDStatSubsystem : String := "filefd"

/-- The struct `fileFDStatCollector`. -/
structure fileFDStatCollector where
  metrics : GoMap Gauge
deriving DecidableEq, Repr

/-- The function `NewFileFDStatCollector()`. -/
def NewFileFDStatCollector : Result fileFDStatCollector :=
  .ok { metrics := [] }

/-- What the source uses of its package and of the standard library and does not
define: the constant `Namespace`, the function `procFilePath`, and
`strconv.ParseFloat(s, 64)`. -/
structure Host where
  Namespace : String
  procFilePath : String → String
  ParseFloat : String → Except GoError Float64

/-- What one call of `Update` meets: the file system (`os.Open`), and the orders in
which its two `range` statements visit their maps. -/
structure Cycle where
  osOpen : String → Except GoError Reader
  statOrder : RangeOrder String
  metricOrder : RangeOrder Gauge

/-- `fmt.Errorf("couldn't get file-nr: %s", err)`. -/
def errGetFileNr (err : GoError) : GoError :=
  ⟨"couldn't get file-nr: " ++ err.Error⟩

/-- `fmt.Errorf("invalid value %s in file-nr: %s", value, err)`. -/
def errInvalidValue (value : String) (err : GoError) : GoError :=
  ⟨"invalid value " ++ value ++ " in file-nr: " ++ err.Error⟩

/-- `fmt.Sprintf("File descriptor statistics: %s.", name)`. -/
def helpText (name : String) : String :=
  "File descriptor statistics: " ++ name ++ "."

/-- The options of the gauge that `Update` makes for `name`. -/
def gaugeOpts (h : Host) (name : String) : GaugeOpts :=
  { Namespace := h.Namespace
    Subsystem := fileFDStatSubsystem
    Name := name
    Help := helpText name }

/-- What the first loop of `Update` works on: the collector, and the log of the calls
of `prometheus.NewGauge` made so far in this call of `Update` (the options passed, in
the order of the calls). -/
structure LoopState where
  c : fileFDStatCollector
  made : List GaugeOpts
deriving DecidableEq, Repr

/-- The statement `if _, ok := c.metrics[name]; !ok` of the loop body, which assigns a
new gauge to `c.metrics[name]` when the map has no entry for `name`. -/
def ensureGauge (h : Host) (name : String) (s : LoopState) : LoopState :=
  match s.c.metrics.get? name with
  | some _ => s
  | none =>
    { c := { metrics := s.c.metrics.set name (NewGauge (gaugeOpts h name)) }
      made := s.made ++ [gaugeOpts h name] }

/-- The effect on the loop state of one iteration of the loop in which `ParseFloat`
gives `v`: the gauge of `name` is made if the map has none, and set to `v`. -/
def storeGauge (h : Host) (name : String) (v : Float64) (s : LoopState) : LoopState :=
  let s := ensureGauge h name s
  match s.c.metrics.get? name with
  | none => s
  | some g => { s with c := { metrics := s.c.metrics.set name (g.Set v) } }

/-- The loop `for name, value := range fileFDStat` of `Update`, over the entries in
the order they are visited. It ends normally (`ok`), by the `return` of the failed
`ParseFloat`, or by a panic. -/
def rangeStat (h : Host) : List (String × String) → LoopState → Result Unit × LoopState
  | [], s => (.ok (), s)
  | (name, value) :: rest, s =>
    let s := ensureGauge h name s
    match h.ParseFloat value with
    | .error err => (.err (errInvalidValue value err), s)
    | .ok v =>
      match s.c.metrics.get? name with
      | none => (.panic .nilDereference, s)
      | some g =>
        rangeStat h rest { s with c := { metrics := s.c.metrics.set name (g.Set v) } }

/-- The loop `for _, m := range c.metrics` with the body `m.Collect(ch)`: the gauges
sent on the channel, in the order sent, each with the value it has then. -/
def rangeCollect (order : RangeOrder Gauge) (c : fileFDStatCollector) : List Gauge :=
  (order.visit c.metrics).map Prod.snd

/-- The outcome of one call of `Update`: how it ended, the collector afterwards, the
calls of `prometheus.NewGauge` it made, and the gauges it sent on the channel. -/
structure UpdateResult where
  out : Result Unit
  c : fileFDStatCollector
  made : List GaugeOpts
  sent : List Gauge
deriving DecidableEq, Repr

/-- The method `(c *fileFDStatCollector) Update(ch)`. -/
def Update (h : Host) (w : Cycle) (c : fileFDStatCollector) : UpdateResult :=
  match getFileFDStats w.osOpen (h.procFilePath "sys/fs/file-nr") with
  | .err err => { out := .err (errGetFileNr err), c := c, made := [], sent := [] }
  | .panic p => { out := .panic p, c := c, made := [], sent := [] }
  | .ok fileFDStat =>
    match rangeStat h (w.statOrder.visit fileFDStat) { c := c, made := [] } with
    | (.ok (), s) =>
      { out := .ok (), c := s.c, made := s.made, sent := rangeCollect w.metricOrder s.c }
    | (.err e, s) => { out := .err e, c := s.c, made := s.made, sent := [] }
    | (.panic p, s) => { out := .panic p, c := s.c, made := s.made, sent := [] }

/-- A run of `Update` calls, one per cycle of `ws`, on the same collector: the collector
at the end and the log of all the calls of `prometheus.NewGauge` made. -/
def runUpdates (h : Host) : List Cycle → fileFDStatCollector → fileFDStatCollector × List GaugeOpts
  | [], c => (c, [])
  | w :: ws, c =>
    let res := Update h w c
    let rest := runUpdates h ws res.c
    (rest.1, res.made ++ rest.2)

/-- The collectors a program can hold: the one `NewFileFDStatCollector` returns, and
its state after any number of calls of `Update`, whatever their outcome. -/
inductive Reachable (h : Host) : fileFDStatCollector → Prop
  | new (c : fileFDStatCollector) (hc : NewFileFDStatCollector = .ok c) : Reachable h c
  | update (w : Cycle) (c : fileFDStatCollector) (hc : Reachable h c) :
      Reachable h (Update h w c).c

/-- What holds of every collector a program can hold: its names are distinct, they are
among the two names of the reader, and every gauge is under the name it was made
with. -/
def Invariant (c : fileFDStatCollector) : Prop :=
  (GoMap.keys c.metrics).Nodup ∧
    (∀ k ∈ GoMap.keys c.metrics, k = "allocated" ∨ k = "maximum") ∧
    ∀ k g, c.metrics.get? k = some g → g.opts.Name = k

/-- One string occurs inside another. -/
def Contains (s sub : String) : Prop := sub.data <:+: s.data

instance (s sub : String) : Decidable (Contains s sub) :=
  inferInstanceAs (Decidable (sub.data <:+: s.data))

/-! ## A host and cycles for the examples -/

/-- The number of binary digits of `n`, computed with `fuel` steps at most. -/
def bitLength : Nat → Nat → Nat
  | 0, _ => 0
  | fuel + 1, n => if n = 0 then 0 else bitLength fuel (n / 2) + 1

/-- The float64 nearest to the natural number `n` (ties to the even mantissa), or
`none` when that is beyond the largest finite float64. -/
def Float64.ofNat (n : Nat) : Option Float64 :=
  if n = 0 then some ⟨0⟩
  else
    let e := bitLength n n - 1
    if e ≤ 52 then
      some ⟨(e + 1023) * 2 ^ 52 + (n * 2 ^ (52 - e) - 2 ^ 52)⟩
    else
      let shift := e - 52
      let q := n / 2 ^ shift
      let r := n % 2 ^ shift
      let half := 2 ^ (shift - 1)
      let q := if half < r ∨ (r = half ∧ q % 2 = 1) then q + 1 else q
      let e := if q = 2 ^ 53 then e + 1 else e
      let q := if q = 2 ^ 53 then 2 ^ 52 else q
      if 1023 < e then none else some ⟨(e + 1023) * 2 ^ 52 + (q - 2 ^ 52)⟩

/-- The value of a list of decimal digits. -/
def digitsValue (l : List Char) : Nat :=
  l.foldl (fun n c => 10 * n + (c.toNat - 48)) 0

/-- The text `strconv.Quote(s)` for text `s` of printable ASCII characters. -/
def Quote (s : String) : String :=
  "\"" ++ String.mk (s.data.flatMap fun c =>
    if c = '\"' ∨ c = '\\' then ['\\', c] else [c]) ++ "\""

/-- The text of a `*strconv.NumError` of `ParseFloat`. -/
def numError (num msg : String) : GoError :=
  ⟨"strconv.ParseFloat: parsing " ++ Quote num ++ ": " ++ msg⟩

/-- A `strconv.ParseFloat(s, 64)` for the examples. It agrees with the library on text
made of decimal digits only. All other text it rejects as a syntax error; of that, the
library accepts the signed, fractional, exponent, hexadecimal and underscore forms and
the names of the infinities and of NaN. -/
def decimalParseFloat (s : String) : Except GoError Float64 :=
  if s.data ≠ [] ∧ s.data.all Char.isDigit then
    match Float64.ofNat (digitsValue s.data) with
    | some v => .ok v
    | none => .error (numError s "value out of range")
  else .error (numError s "invalid syntax")

/-- A host for the examples: the namespace `node`, the proc file system at `/proc`. -/
def nodeHost : Host :=
  { Namespace := "node"
    procFilePath := fun name => "/proc/" ++ name
    ParseFloat := decimalParseFloat }

/-- The order of a `range` that visits the entries as the map lists them. -/
def RangeOrder.listed (α : Type) : RangeOrder α :=
  { visit := fun l => l
    perm := fun l => List.Perm.refl l }

/-- The order of a `range` that visits the entries last to first. -/
def RangeOrder.reversed (α : Type) : RangeOrder α :=
  { visit := fun l => l.reverse
    perm := fun l => List.reverse_perm l }

/-- A file system in which every path opens a file with the content `data`. -/
def fileWith (data : String) : String → Except GoError Reader :=
  fun _ => .ok { data := data, err := none }

/-- A file system in which no file can be opened. -/
def noFile : String → Except GoError Reader :=
  fun name => .error ⟨"open " ++ name ++ ": no such file or directory"⟩

/-- A cycle in which the file has the content `data` and both loops visit their maps
as listed. -/
def cycleOf (data : String) : Cycle :=
  { osOpen := fileWith data
    statOrder := RangeOrder.listed String
    metricOrder := RangeOrder.listed Gauge }

/-- A cycle in which the file has the content `data` and both loops visit their maps
last to first. -/
def cycleReversed (data : String) : Cycle :=
  { osOpen := fileWith data
    statOrder := RangeOrder.reversed String
    metricOrder := RangeOrder.reversed Gauge }

/-- A file system in which every path opens a file whose reads deliver `data` and then
fail with the error `e`. -/
def fileFailing (data : String) (e : GoError) : String → Except GoError Reader :=
  fun _ => .ok { data := data, err := some e }

/-- A cycle on the file system `osOpen` in which both loops visit their maps as
listed. -/
def cycleOn (osOpen : String → Except GoError Reader) : Cycle :=
  { osOpen := osOpen
    statOrder := RangeOrder.listed String
    metricOrder := RangeOrder.listed Gauge }

set_option maxRecDepth 100000

/-! ## Lemmas on Go maps -/

namespace GoMap

variable {α : Type}

theorem get?_set_self (m : GoMap α) (k : String) (v : α) : (m.set k v).get? k = some v := by
  induction m with
  | nil => simp [set, get?]
  | cons p rest ih =>
    obtain ⟨k', v'⟩ := p
    by_cases hk : k' = k
    · simp [set, get?, hk]
    · simp [set, get?, hk, ih]

theorem get?_set_ne (m : GoMap α) (k k' : String) (v : α) (hne : k' ≠ k) :
    (m.set k v).get? k' = m.get? k' := by
  induction m with
  | nil => simp [set, get?, Ne.symm hne]
  | cons p rest ih =>
    obtain ⟨k₀, v₀⟩ := p
    by_cases hk : k₀ = k
    · subst hk
      simp [set, get?, Ne.symm hne]
    · by_cases hk' : k₀ = k'
      · subst hk'
        simp [set, get?, hk]
      · simp [set, get?, hk, hk', ih]

theorem set_of_get? (m : GoMap α) (k : String) (v : α) (hget : m.get? k = some v) :
    m.set k v = m := by
  induction m with
  | nil => simp [get?] at hget
  | cons p rest ih =>
    obtain ⟨k', v'⟩ := p
    by_cases hk : k' = k
    · subst hk
      simp [get?] at hget
      simp [set, hget]
    · simp [get?, hk] at hget
      simp [set, hk, ih hget]

theorem mem_of_get? (m : GoMap α) (k : String) (v : α) (hget : m.get? k = some v) :
    (k, v) ∈ m := by
  induction m with
  | nil => simp [get?] at hget
  | cons p rest ih =>
    obtain ⟨k', v'⟩ := p
    by_cases hk : k' = k
    · subst hk
      simp [get?] at hget
      simp [hget]
    · simp [get?, hk] at hget
      exact List.mem_cons_of_mem _ (ih hget)

theorem get?_eq_none_iff (m : GoMap α) (k : String) : m.get? k = none ↔ k ∉ m.keys := by
  induction m with
  | nil => simp [get?, keys]
  | cons p rest ih =>
    obtain ⟨k', v'⟩ := p
    by_cases hk : k' = k
    · simp [get?, keys, hk]
    · simp only [get?, hk, if_false, ih, keys, List.map_cons, List.mem_cons]
      constructor
      · rintro h (h' | h')
        · exact hk h'.symm
        · exact h h'
      · intro h h'
        exact h (Or.inr h')

theorem get?_of_mem_nodup (m : GoMap α) (k : String) (v : α) (hmem : (k, v) ∈ m)
    (hnd : m.keys.Nodup) : m.get? k = some v := by
  induction m with
  | nil => simp at hmem
  | cons p rest ih =>
    obtain ⟨k', v'⟩ := p
    simp only [keys, List.map_cons, List.nodup_cons] at hnd
    rcases List.mem_cons.1 hmem with heq | hin
    · cases heq
      simp [get?]
    · have hne : k' ≠ k := by
        intro h
        subst h
        exact hnd.1 (List.mem_map_of_mem Prod.fst hin)
      simp only [get?, hne, if_false]
      exact ih hin hnd.2

theorem keys_set (m : GoMap α) (k : String) (v : α) :
    (m.set k v).keys = if k ∈ m.keys then m.keys else m.keys ++ [k] := by
  induction m with
  | nil => simp [set, keys]
  | cons p rest ih =>
    obtain ⟨k', v'⟩ := p
    by_cases hk : k' = k
    · subst hk
      simp [set, keys]
    · have hk' : ¬ k = k' := fun h => hk h.symm
      simp only [set, hk, if_false, keys, List.map_cons, List.mem_cons, hk', false_or] at ih ⊢
      rw [ih]
      split <;> simp

end GoMap

/-! ## Lemmas on splitting -/

theorem splitChars_ne_nil (sep : Char) (l : List Char) : splitChars sep l ≠ [] := by
  cases l with
  | nil => simp [splitChars]
  | cons c cs =>
    simp only [splitChars]
    split
    · simp
    · split <;> simp

theorem splitChars_of_not_mem (sep : Char) (l : List Char) (h : sep ∉ l) :
    splitChars sep l = [l] := by
  induction l with
  | nil => simp [splitChars]
  | cons c cs ih =>
    simp only [List.mem_cons, not_or] at h
    have hc : c ≠ sep := fun e => h.1 e.symm
    simp [splitChars, hc, ih h.2]

theorem splitChars_append_sep (sep : Char) (f rest : List Char) (h : sep ∉ f) :
    splitChars sep (f ++ sep :: rest) = f :: splitChars sep rest := by
  induction f with
  | nil => simp [splitChars]
  | cons c cs ih =>
    simp only [List.mem_cons, not_or] at h
    have hc : c ≠ sep := fun e => h.1 e.symm
    simp [splitChars, hc, ih h.2]

theorem Split_ne_nil (s : String) (sep : Char) : Split s sep ≠ [] := by
  simp [Split, splitChars_ne_nil]

/-- The fields of `f0 TAB f1 TAB f2`. -/
theorem Split_three (f0 f1 f2 : String) (h0 : '\t' ∉ f0.data) (h1 : '\t' ∉ f1.data)
    (h2 : '\t' ∉ f2.data) : Split (f0 ++ "\t" ++ f1 ++ "\t" ++ f2) '\t' = [f0, f1, f2] := by
  have e : (f0 ++ "\t" ++ f1 ++ "\t" ++ f2).data
      = f0.data ++ '\t' :: (f1.data ++ '\t' :: f2.data) := by
    simp [String.data_append]
  simp only [Split, e]
  rw [splitChars_append_sep _ _ _ h0, splitChars_append_sep _ _ _ h1,
    splitChars_of_not_mem _ _ h2]
  rfl

/-! ## The reader -/

theorem parseFileFDStats_eq (r : Reader) (fileName : String) :
    parseFileFDStats r fileName =
      match (Split (Scan r).Text '\t').get? 0, (Split (Scan r).Text '\t').get? 2 with
      | some f0, some f2 => .ok [("allocated", f0), ("maximum", f2)]
      | _, _ => .panic (.indexOutOfRange 2 (Split (Scan r).Text '\t').length) := by
  have hne := Split_ne_nil (Scan r).Text '\t'
  simp only [parseFileFDStats, index]
  generalize Split (Scan r).Text '\t' = line at hne
  match line, hne with
  | [f0], _ => rfl
  | [f0, f1], _ => rfl
  | f0 :: f1 :: f2 :: tl, _ => rfl

/-! ## One iteration of the first loop -/

theorem ensureGauge_of_some (h : Host) (n : String) (s : LoopState) (g : Gauge)
    (hg : s.c.metrics.get? n = some g) : ensureGauge h n s = s := by
  simp [ensureGauge, hg]

theorem ensureGauge_of_none (h : Host) (n : String) (s : LoopState)
    (hg : s.c.metrics.get? n = none) :
    ensureGauge h n s =
      { c := { metrics := s.c.metrics.set n (NewGauge (gaugeOpts h n)) }
        made := s.made ++ [gaugeOpts h n] } := by
  simp [ensureGauge, hg]

theorem ensureGauge_get?_self (h : Host) (n : String) (s : LoopState) :
    (ensureGauge h n s).c.metrics.get? n
      = some ((s.c.metrics.get? n).getD (NewGauge (gaugeOpts h n))) := by
  cases hg : s.c.metrics.get? n with
  | some g => simp [ensureGauge_of_some h n s g hg, hg]
  | none => simp [ensureGauge_of_none h n s hg, GoMap.get?_set_self]

theorem ensureGauge_get?_ne (h : Host) (n k : String) (s : LoopState) (hne : k ≠ n) :
    (ensureGauge h n s).c.metrics.get? k = s.c.metrics.get? k := by
  cases hg : s.c.metrics.get? n with
  | some g => rw [ensureGauge_of_some h n s g hg]
  | none => simp [ensureGauge_of_none h n s hg, GoMap.get?_set_ne _ _ _ _ hne]

theorem ensureGauge_made (h : Host) (n : String) (s : LoopState) :
    (ensureGauge h n s).made
      = s.made ++ (if s.c.metrics.get? n = none then [gaugeOpts h n] else []) := by
  cases hg : s.c.metrics.get? n with
  | some g => simp [ensureGauge_of_some h n s g hg]
  | none => simp [ensureGauge_of_none h n s hg]

theorem ensureGauge_keys (h : Host) (n : String) (s : LoopState) :
    GoMap.keys (ensureGauge h n s).c.metrics
      = if n ∈ GoMap.keys s.c.metrics then GoMap.keys s.c.metrics
        else GoMap.keys s.c.metrics ++ [n] := by
  cases hg : s.c.metrics.get? n with
  | some g =>
    have hin : n ∈ GoMap.keys s.c.metrics := by
      by_contra hn
      rw [(GoMap.get?_eq_none_iff _ _).2 hn] at hg
      cases hg
    simp [ensureGauge_of_some h n s g hg, hin]
  | none =>
    have hn : n ∉ GoMap.keys s.c.metrics := (GoMap.get?_eq_none_iff _ _).1 hg
    simp [ensureGauge_of_none h n s hg, GoMap.keys_set, hn]

theorem storeGauge_eq (h : Host) (n : String) (v : Float64) (s : LoopState) :
    storeGauge h n v s =
      { c := { metrics := (ensureGauge h n s).c.metrics.set n
                (((s.c.metrics.get? n).getD (NewGauge (gaugeOpts h n))).Set v) }
        made := (ensureGauge h n s).made } := by
  simp [storeGauge, ensureGauge_get?_self]

theorem storeGauge_get?_self (h : Host) (n : String) (v : Float64) (s : LoopState) :
    (storeGauge h n v s).c.metrics.get? n
      = some (((s.c.metrics.get? n).getD (NewGauge (gaugeOpts h n))).Set v) := by
  simp [storeGauge_eq, GoMap.get?_set_self]

theorem storeGauge_get?_ne (h : Host) (n k : String) (v : Float64) (s : LoopState)
    (hne : k ≠ n) : (storeGauge h n v s).c.metrics.get? k = s.c.metrics.get? k := by
  simp [storeGauge_eq, GoMap.get?_set_ne _ _ _ _ hne, ensureGauge_get?_ne _ _ _ _ hne]

theorem storeGauge_made (h : Host) (n : String) (v : Float64) (s : LoopState) :
    (storeGauge h n v s).made = (ensureGauge h n s).made := by
  simp [storeGauge_eq]

theorem storeGauge_keys (h : Host) (n : String) (v : Float64) (s : LoopState) :
    GoMap.keys (storeGauge h n v s).c.metrics = GoMap.keys (ensureGauge h n s).c.metrics := by
  have hin : n ∈ GoMap.keys (ensureGauge h n s).c.metrics := by
    by_contra hn
    have := (GoMap.get?_eq_none_iff _ _).2 hn
    rw [ensureGauge_get?_self] at this
    cases this
  simp [storeGauge_eq, GoMap.keys_set, hin]

theorem rangeStat_nil (h : Host) (s : LoopState) : rangeStat h [] s = (.ok (), s) := rfl

theorem rangeStat_cons_ok (h : Host) (n t : String) (rest : List (String × String))
    (s : LoopState) (v : Float64) (hp : h.ParseFloat t = .ok v) :
    rangeStat h ((n, t) :: rest) s = rangeStat h rest (storeGauge h n v s) := by
  simp [rangeStat, hp, storeGauge_eq, ensureGauge_get?_self]

theorem rangeStat_cons_error (h : Host) (n t : String) (rest : List (String × String))
    (s : LoopState) (e : GoError) (hp : h.ParseFloat t = .error e) :
    rangeStat h ((n, t) :: rest) s = (.err (errInvalidValue t e), ensureGauge h n s) := by
  simp [rangeStat, hp]

/-! ## The first loop as a whole -/

/-- The loop never panics: the gauge it sets was looked up or made just before. -/
theorem rangeStat_no_panic (h : Host) (l : List (String × String)) (s : LoopState)
    (p : Panic) : (rangeStat h l s).1 ≠ .panic p := by
  induction l generalizing s with
  | nil => simp [rangeStat_nil]
  | cons x rest ih =>
    obtain ⟨n, t⟩ := x
    cases hp : h.ParseFloat t with
    | error e => simp [rangeStat_cons_error h n t rest s e hp]
    | ok v =>
      rw [rangeStat_cons_ok h n t rest s v hp]
      exact ih _

/-- The loop ends normally exactly when every text it visits parses. -/
theorem rangeStat_ok_iff (h : Host) (l : List (String × String)) (s : LoopState) :
    (rangeStat h l s).1 = .ok () ↔ ∀ x ∈ l, ∃ v, h.ParseFloat x.2 = .ok v := by
  induction l generalizing s with
  | nil => simp [rangeStat_nil]
  | cons x rest ih =>
    obtain ⟨n, t⟩ := x
    cases hp : h.ParseFloat t with
    | error e =>
      simp [rangeStat_cons_error h n t rest s e hp, hp]
    | ok v =>
      rw [rangeStat_cons_ok h n t rest s v hp, ih]
      simp [hp]

/-- When the loop ends by an error, the error is the one made from the first text
that does not parse. -/
theorem rangeStat_err (h : Host) (l : List (String × String)) (s : LoopState) (e : GoError)
    (he : (rangeStat h l s).1 = .err e) :
    ∃ x ∈ l, ∃ e', h.ParseFloat x.2 = .error e' ∧ e = errInvalidValue x.2 e' := by
  induction l generalizing s with
  | nil => simp [rangeStat_nil] at he
  | cons x rest ih =>
    obtain ⟨n, t⟩ := x
    cases hp : h.ParseFloat t with
    | error e' =>
      rw [rangeStat_cons_error h n t rest s e' hp] at he
      refine ⟨(n, t), List.mem_cons_self _ _, e', hp, ?_⟩
      simp at he
      exact he.symm
    | ok v =>
      rw [rangeStat_cons_ok h n t rest s v hp] at he
      obtain ⟨x, hx, e', h1, h2⟩ := ih _ he
      exact ⟨x, List.mem_cons_of_mem _ hx, e', h1, h2⟩

/-- A name the loop does not visit keeps its entry, or keeps having none. -/
theorem rangeStat_get?_not_visited (h : Host) (l : List (String × String)) (s : LoopState)
    (k : String) (hk : k ∉ l.map Prod.fst) :
    (rangeStat h l s).2.c.metrics.get? k = s.c.metrics.get? k := by
  induction l generalizing s with
  | nil => simp [rangeStat_nil]
  | cons x rest ih =>
    obtain ⟨n, t⟩ := x
    simp only [List.map_cons, List.mem_cons, not_or] at hk
    cases hp : h.ParseFloat t with
    | error e =>
      rw [rangeStat_cons_error h n t rest s e hp]
      exact ensureGauge_get?_ne h n k s hk.1
    | ok v =>
      rw [rangeStat_cons_ok h n t rest s v hp, ih _ hk.2]
      exact storeGauge_get?_ne h n k v s hk.1

/-- An entry the map has before the loop is still there after it, with the options it
had. -/
theorem rangeStat_get?_opts (h : Host) (l : List (String × String)) (s : LoopState)
    (k : String) (g : Gauge) (hg : s.c.metrics.get? k = some g) :
    ∃ g', (rangeStat h l s).2.c.metrics.get? k = some g' ∧ g'.opts = g.opts := by
  induction l generalizing s g with
  | nil => exact ⟨g, by simpa [rangeStat_nil] using hg, rfl⟩
  | cons x rest ih =>
    obtain ⟨n, t⟩ := x
    cases hp : h.ParseFloat t with
    | error e =>
      rw [rangeStat_cons_error h n t rest s e hp]
      by_cases hkn : k = n
      · subst hkn
        exact ⟨g, by simp [ensureGauge_get?_self, hg], rfl⟩
      · exact ⟨g, by rw [ensureGauge_get?_ne h n k s hkn]; exact hg, rfl⟩
    | ok v =>
      rw [rangeStat_cons_ok h n t rest s v hp]
      by_cases hkn : k = n
      · subst hkn
        have hs : (storeGauge h k v s).c.metrics.get? k = some (g.Set v) := by
          simp [storeGauge_get?_self, hg]
        obtain ⟨g', h1, h2⟩ := ih _ (g.Set v) hs
        exact ⟨g', h1, by simpa [Gauge.Set] using h2⟩
      · have hs : (storeGauge h n v s).c.metrics.get? k = some g := by
          rw [storeGauge_get?_ne h n k v s hkn]; exact hg
        exact ih _ g hs

/-- After a loop that ends normally over entries with distinct names, the gauge of every
name visited holds the value parsed from the text of that name. -/
theorem rangeStat_get?_visited (h : Host) (l : List (String × String)) (s : LoopState)
    (hnd : (l.map Prod.fst).Nodup) (hok : (rangeStat h l s).1 = .ok ())
    (n t : String) (hmem : (n, t) ∈ l) :
    ∃ g, (rangeStat h l s).2.c.metrics.get? n = some g ∧ h.ParseFloat t = .ok g.value := by
  induction l generalizing s with
  | nil => simp at hmem
  | cons x rest ih =>
    obtain ⟨n₀, t₀⟩ := x
    simp only [List.map_cons, List.nodup_cons] at hnd
    cases hp : h.ParseFloat t₀ with
    | error e => simp [rangeStat_cons_error h n₀ t₀ rest s e hp] at hok
    | ok v =>
      rw [rangeStat_cons_ok h n₀ t₀ rest s v hp] at hok ⊢
      rcases List.mem_cons.1 hmem with heq | hin
      · cases heq
        rw [rangeStat_get?_not_visited h rest _ n hnd.1, storeGauge_get?_self]
        exact ⟨_, rfl, by simpa [Gauge.Set] using hp⟩
      · exact ih _ hnd.2 hok hin

/-- The names of the map after the loop are those it had and those visited. -/
theorem rangeStat_keys (h : Host) (l : List (String × String)) (s : LoopState) (k : String)
    (hk : k ∈ GoMap.keys (rangeStat h l s).2.c.metrics) :
    k ∈ GoMap.keys s.c.metrics ∨ k ∈ l.map Prod.fst := by
  by_contra hcon
  simp only [not_or] at hcon
  have h1 := rangeStat_get?_not_visited h l s k hcon.2
  rw [(GoMap.get?_eq_none_iff _ _).2 hcon.1] at h1
  exact (GoMap.get?_eq_none_iff _ _).1 h1 hk

/-- The loop keeps the names of the map distinct. -/
theorem rangeStat_nodup (h : Host) (l : List (String × String)) (s : LoopState)
    (hnd : (GoMap.keys s.c.metrics).Nodup) :
    (GoMap.keys (rangeStat h l s).2.c.metrics).Nodup := by
  have step : ∀ (n : String) (s : LoopState), (GoMap.keys s.c.metrics).Nodup →
      (GoMap.keys (ensureGauge h n s).c.metrics).Nodup := by
    intro n s hs
    rw [ensureGauge_keys]
    split
    · exact hs
    · rename_i hn
      exact List.Nodup.append hs (List.nodup_singleton n) (by simpa using hn)
  induction l generalizing s with
  | nil => simpa [rangeStat_nil] using hnd
  | cons x rest ih =>
    obtain ⟨n, t⟩ := x
    cases hp : h.ParseFloat t with
    | error e =>
      rw [rangeStat_cons_error h n t rest s e hp]
      exact step n s hnd
    | ok v =>
      rw [rangeStat_cons_ok h n t rest s v hp]
      apply ih
      rw [storeGauge_keys]
      exact step n s hnd

/-- The loop keeps every gauge under the name it was made with. -/
theorem rangeStat_names (h : Host) (l : List (String × String)) (s : LoopState)
    (hs : ∀ k g, s.c.metrics.get? k = some g → g.opts.Name = k) :
    ∀ k g, (rangeStat h l s).2.c.metrics.get? k = some g → g.opts.Name = k := by
  have step : ∀ (n : String) (s : LoopState),
      (∀ k g, s.c.metrics.get? k = some g → g.opts.Name = k) →
      ∀ k g, (ensureGauge h n s).c.metrics.get? k = some g → g.opts.Name = k := by
    intro n s hs k g hg
    by_cases hkn : k = n
    · subst hkn
      rw [ensureGauge_get?_self] at hg
      cases hget : s.c.metrics.get? k with
      | some g₀ =>
        simp [hget] at hg
        subst hg
        exact hs k g₀ hget
      | none =>
        simp [hget] at hg
        subst hg
        rfl
    · rw [ensureGauge_get?_ne h n k s hkn] at hg
      exact hs k g hg
  induction l generalizing s with
  | nil => simpa [rangeStat_nil] using hs
  | cons x rest ih =>
    obtain ⟨n, t⟩ := x
    cases hp : h.ParseFloat t with
    | error e =>
      rw [rangeStat_cons_error h n t rest s e hp]
      exact step n s hs
    | ok v =>
      rw [rangeStat_cons_ok h n t rest s v hp]
      apply ih
      intro k g hg
      by_cases hkn : k = n
      · subst hkn
        rw [storeGauge_get?_self] at hg
        have h1 := ensureGauge_get?_self h k s
        have h2 := step k s hs k _ h1
        simp at hg
        subst hg
        simpa [Gauge.Set] using h2
      · rw [storeGauge_get?_ne h n k v s hkn] at hg
        exact hs k g hg

/-- The calls of `prometheus.NewGauge` in the loop: each is for a name visited that had
no entry before the loop, with the options of `gaugeOpts`, the gauge made is the entry
of the name after the loop, and no two calls are for the same name. -/
theorem rangeStat_made (h : Host) (l : List (String × String)) (s : LoopState) :
    ∃ new, (rangeStat h l s).2.made = s.made ++ new ∧ (new.map GaugeOpts.Name).Nodup ∧
      ∀ o ∈ new, s.c.metrics.get? o.Name = none ∧ o = gaugeOpts h o.Name ∧
        o.Name ∈ l.map Prod.fst ∧
        ∃ g, (rangeStat h l s).2.c.metrics.get? o.Name = some g ∧ g.opts = o := by
  induction l generalizing s with
  | nil => exact ⟨[], by simp [rangeStat_nil]⟩
  | cons x rest ih =>
    obtain ⟨n, t⟩ := x
    have hd : ∀ o ∈ (if s.c.metrics.get? n = none then [gaugeOpts h n] else []),
        s.c.metrics.get? o.Name = none ∧ o = gaugeOpts h o.Name ∧ o.Name = n := by
      intro o ho
      split at ho
      · rename_i hnone
        simp only [List.mem_singleton] at ho
        subst ho
        exact ⟨hnone, rfl, rfl⟩
      · simp at ho
    have hdn : ((if s.c.metrics.get? n = none then [gaugeOpts h n] else []).map
        GaugeOpts.Name).Nodup := by
      split <;> simp
    cases hp : h.ParseFloat t with
    | error e =>
      rw [rangeStat_cons_error h n t rest s e hp]
      refine ⟨_, ensureGauge_made h n s, hdn, ?_⟩
      intro o ho
      obtain ⟨h1, h2, h3⟩ := hd o ho
      refine ⟨h1, h2, by simp [h3], NewGauge (gaugeOpts h n), ?_, ?_⟩
      · rw [h3] at h1 ⊢
        simp [ensureGauge_get?_self, h1]
      · rw [h2, h3]
        rfl
    | ok v =>
      rw [rangeStat_cons_ok h n t rest s v hp]
      obtain ⟨new, h1, h2, h3⟩ := ih (storeGauge h n v s)
      have hne : ∀ o ∈ new, o.Name ≠ n := by
        intro o ho hname
        have := (h3 o ho).1
        rw [hname, storeGauge_get?_self] at this
        cases this
      refine ⟨(if s.c.metrics.get? n = none then [gaugeOpts h n] else []) ++ new, ?_, ?_, ?_⟩
      · rw [h1, storeGauge_made, ensureGauge_made, List.append_assoc]
      · rw [List.map_append]
        refine List.Nodup.append hdn h2 ?_
        intro a ha hb
        obtain ⟨o, ho, rfl⟩ := List.mem_map.1 ha
        obtain ⟨o', ho', heq⟩ := List.mem_map.1 hb
        exact hne o' ho' (heq.trans (hd o ho).2.2)
      · intro o ho
        rcases List.mem_append.1 ho with ho | ho
        · obtain ⟨g1, g2, g3⟩ := hd o ho
          have hs : (storeGauge h n v s).c.metrics.get? o.Name
              = some ((NewGauge (gaugeOpts h n)).Set v) := by
            rw [g3] at g1 ⊢
            simp [storeGauge_get?_self, g1]
          obtain ⟨g', k1, k2⟩ := rangeStat_get?_opts h rest _ _ _ hs
          refine ⟨g1, g2, by simp [g3], g', k1, ?_⟩
          rw [k2, g2, g3]
          rfl
        · obtain ⟨g1, g2, g3, g4⟩ := h3 o ho
          rw [storeGauge_get?_ne h n o.Name v s (hne o ho)] at g1
          exact ⟨g1, g2, by simp [g3], g4⟩

/-! ## `getFileFDStats` and `Update` by cases -/

theorem getFileFDStats_of_error (osOpen : String → Except GoError Reader) (fileName : String)
    (e : GoError) (ho : osOpen fileName = .error e) :
    getFileFDStats osOpen fileName = .err e := by
  simp [getFileFDStats, ho]

theorem getFileFDStats_of_ok (osOpen : String → Except GoError Reader) (fileName : String)
    (r : Reader) (ho : osOpen fileName = .ok r) :
    getFileFDStats osOpen fileName = parseFileFDStats r fileName := by
  simp [getFileFDStats, ho]

/-- A mapping that `parseFileFDStats` returns has the two names, in this order in the
list that stands for the map. -/
theorem parseFileFDStats_ok (r : Reader) (fileName : String) (stat : GoMap String)
    (hs : parseFileFDStats r fileName = .ok stat) :
    ∃ f0 f2, (Split (Scan r).Text '\t').get? 0 = some f0 ∧
      (Split (Scan r).Text '\t').get? 2 = some f2 ∧
      stat = [("allocated", f0), ("maximum", f2)] := by
  rw [parseFileFDStats_eq] at hs
  split at hs
  · rename_i f0 f2 h0 h2
    exact ⟨f0, f2, h0, h2, by simpa using hs.symm⟩
  · cases hs

theorem getFileFDStats_ok (osOpen : String → Except GoError Reader) (fileName : String)
    (stat : GoMap String) (hs : getFileFDStats osOpen fileName = .ok stat) :
    ∃ f0 f2, stat = [("allocated", f0), ("maximum", f2)] := by
  cases ho : osOpen fileName with
  | error e => rw [getFileFDStats_of_error _ _ e ho] at hs; cases hs
  | ok r =>
    rw [getFileFDStats_of_ok _ _ r ho] at hs
    obtain ⟨f0, f2, _, _, h⟩ := parseFileFDStats_ok r fileName stat hs
    exact ⟨f0, f2, h⟩

theorem Update_of_err (h : Host) (w : Cycle) (c : fileFDStatCollector) (e : GoError)
    (hs : getFileFDStats w.osOpen (h.procFilePath "sys/fs/file-nr") = .err e) :
    Update h w c = { out := .err (errGetFileNr e), c := c, made := [], sent := [] } := by
  simp [Update, hs]

theorem Update_of_panic (h : Host) (w : Cycle) (c : fileFDStatCollector) (p : Panic)
    (hs : getFileFDStats w.osOpen (h.procFilePath "sys/fs/file-nr") = .panic p) :
    Update h w c = { out := .panic p, c := c, made := [], sent := [] } := by
  simp [Update, hs]

theorem Update_of_stat (h : Host) (w : Cycle) (c : fileFDStatCollector) (stat : GoMap String)
    (hs : getFileFDStats w.osOpen (h.procFilePath "sys/fs/file-nr") = .ok stat) :
    Update h w c =
      { out := (rangeStat h (w.statOrder.visit stat) { c := c, made := [] }).1
        c := (rangeStat h (w.statOrder.visit stat) { c := c, made := [] }).2.c
        made := (rangeStat h (w.statOrder.visit stat) { c := c, made := [] }).2.made
        sent :=
          if (rangeStat h (w.statOrder.visit stat) { c := c, made := [] }).1 = .ok () then
            rangeCollect w.metricOrder
              (rangeStat h (w.statOrder.visit stat) { c := c, made := [] }).2.c
          else [] } := by
  simp only [Update, hs]
  generalize rangeStat h (w.statOrder.visit stat) { c := c, made := [] } = res
  obtain ⟨out, s⟩ := res
  cases out with
  | ok u => simp
  | err e => simp
  | panic p => simp

/-- The names a `range` over a returned mapping visits are distinct. -/
theorem visit_stat_nodup (order : RangeOrder String) (f0 f2 : String) :
    ((order.visit [("allocated", f0), ("maximum", f2)]).map Prod.fst).Nodup := by
  have hp := (order.perm [("allocated", f0), ("maximum", f2)]).map Prod.fst
  rw [hp.nodup_iff]
  simp

theorem visit_stat_mem (order : RangeOrder String) (f0 f2 : String) (x : String × String) :
    x ∈ order.visit [("allocated", f0), ("maximum", f2)] ↔
      x = ("allocated", f0) ∨ x = ("maximum", f2) := by
  rw [(order.perm _).mem_iff]
  simp

/-- A loop over texts that parse to the values the gauges already hold changes
nothing. -/
theorem rangeStat_fixed (h : Host) (l : List (String × String)) (s : LoopState)
    (hl : ∀ x ∈ l, ∃ g, s.c.metrics.get? x.1 = some g ∧ h.ParseFloat x.2 = .ok g.value) :
    rangeStat h l s = (.ok (), s) := by
  induction l with
  | nil => rfl
  | cons x rest ih =>
    obtain ⟨n, t⟩ := x
    obtain ⟨g, hg, hp⟩ := hl (n, t) (List.mem_cons_self _ _)
    have hstore : storeGauge h n g.value s = s := by
      have hset : g.Set g.value = g := rfl
      rw [storeGauge_eq, ensureGauge_of_some h n s g hg]
      simp [hg, hset, GoMap.set_of_get? _ _ _ hg]
    rw [rangeStat_cons_ok h n t rest s g.value hp, hstore]
    exact ih (fun x hx => hl x (List.mem_cons_of_mem _ hx))

/-! ## `Update` as a whole -/

/-- An entry the collector has before `Update` is still there after it, with the
options it had, however the call ends. -/
theorem Update_get?_opts (h : Host) (w : Cycle) (c : fileFDStatCollector) (k : String)
    (g : Gauge) (hg : c.metrics.get? k = some g) :
    ∃ g', (Update h w c).c.metrics.get? k = some g' ∧ g'.opts = g.opts := by
  cases hs : getFileFDStats w.osOpen (h.procFilePath "sys/fs/file-nr") with
  | err e => rw [Update_of_err h w c e hs]; exact ⟨g, hg, rfl⟩
  | panic p => rw [Update_of_panic h w c p hs]; exact ⟨g, hg, rfl⟩
  | ok stat =>
    rw [Update_of_stat h w c stat hs]
    exact rangeStat_get?_opts h _ { c := c, made := [] } k g hg

/-- The calls of `prometheus.NewGauge` in one `Update`. -/
theorem Update_made (h : Host) (w : Cycle) (c : fileFDStatCollector) :
    ((Update h w c).made.map GaugeOpts.Name).Nodup ∧
      ∀ o ∈ (Update h w c).made, c.metrics.get? o.Name = none ∧ o = gaugeOpts h o.Name ∧
        ∃ g, (Update h w c).c.metrics.get? o.Name = some g ∧ g.opts = o := by
  cases hs : getFileFDStats w.osOpen (h.procFilePath "sys/fs/file-nr") with
  | err e => simp [Update_of_err h w c e hs]
  | panic p => simp [Update_of_panic h w c p hs]
  | ok stat =>
    rw [Update_of_stat h w c stat hs]
    obtain ⟨new, h1, h2, h3⟩ := rangeStat_made h (w.statOrder.visit stat) { c := c, made := [] }
    simp only [List.nil_append] at h1
    simp only [h1]
    exact ⟨h2, fun o ho => ⟨(h3 o ho).1, (h3 o ho).2.1, (h3 o ho).2.2.2⟩⟩

/-- The calls of `prometheus.NewGauge` in a run of `Update` calls: no two are for the
same name, and none is for a name the collector had an entry for at the start. -/
theorem runUpdates_made (h : Host) (ws : List Cycle) (c : fileFDStatCollector) :
    ((runUpdates h ws c).2.map GaugeOpts.Name).Nodup ∧
      ∀ o ∈ (runUpdates h ws c).2, c.metrics.get? o.Name = none := by
  induction ws generalizing c with
  | nil => simp [runUpdates]
  | cons w ws ih =>
    obtain ⟨m1, m2⟩ := Update_made h w c
    obtain ⟨r1, r2⟩ := ih (Update h w c).c
    have hback : ∀ o ∈ (runUpdates h ws (Update h w c).c).2, c.metrics.get? o.Name = none := by
      intro o ho
      cases hget : c.metrics.get? o.Name with
      | none => rfl
      | some g =>
        obtain ⟨g', hg', _⟩ := Update_get?_opts h w c o.Name g hget
        rw [r2 o ho] at hg'
        cases hg'
    simp only [runUpdates, List.map_append]
    refine ⟨List.Nodup.append m1 r1 ?_, ?_⟩
    · intro a ha hb
      obtain ⟨o, ho, rfl⟩ := List.mem_map.1 ha
      obtain ⟨o', ho', heq⟩ := List.mem_map.1 hb
      obtain ⟨g, hg, _⟩ := (m2 o ho).2.2
      have := r2 o' ho'
      rw [heq, hg] at this
      cases this
    · intro o ho
      rcases List.mem_append.1 ho with ho | ho
      · exact (m2 o ho).1
      · exact hback o ho

theorem Invariant_Update (h : Host) (w : Cycle) (c : fileFDStatCollector)
    (hc : Invariant c) : Invariant (Update h w c).c := by
  cases hs : getFileFDStats w.osOpen (h.procFilePath "sys/fs/file-nr") with
  | err e => rw [Update_of_err h w c e hs]; exact hc
  | panic p => rw [Update_of_panic h w c p hs]; exact hc
  | ok stat =>
    obtain ⟨f0, f2, rfl⟩ := getFileFDStats_ok _ _ stat hs
    rw [Update_of_stat h w c _ hs]
    refine ⟨rangeStat_nodup h _ _ hc.1, ?_, rangeStat_names h _ _ hc.2.2⟩
    intro k hk
    rcases rangeStat_keys h _ _ k hk with hin | hin
    · exact hc.2.1 k hin
    · obtain ⟨x, hx, rfl⟩ := List.mem_map.1 hin
      rcases (visit_stat_mem w.statOrder f0 f2 x).1 hx with rfl | rfl
      · exact Or.inl rfl
      · exact Or.inr rfl

theorem Reachable.invariant (h : Host) (c : fileFDStatCollector) (hc : Reachable h c) :
    Invariant c := by
  induction hc with
  | new c hnew =>
    simp only [NewFileFDStatCollector, Result.ok.injEq] at hnew
    subst hnew
    simp [Invariant, GoMap.keys, GoMap.get?]
  | update w c _ ih => exact Invariant_Update h w c ih

/-! ## The reader: claim C2 -/

/-- C2. When the first line, as the scanner delivers it, has fewer than three
tab-separated fields, `parseFileFDStats` ends in the index-out-of-range panic of
`line[2]`: it returns no mapping, and no error value either. -/
theorem parseFileFDStats_short_line (r : Reader) (fileName : String)
    (hlen : (Split (Scan r).Text '\t').length < 3) :
    parseFileFDStats r fileName
        = .panic (.indexOutOfRange 2 (Split (Scan r).Text '\t').length) ∧
      ∀ m, parseFileFDStats r fileName ≠ .ok m := by
  have key : parseFileFDStats r fileName
      = .panic (.indexOutOfRange 2 (Split (Scan r).Text '\t').length) := by
    rw [parseFileFDStats_eq]
    have hne := Split_ne_nil (Scan r).Text '\t'
    generalize Split (Scan r).Text '\t' = line at hlen hne
    match line, hlen, hne with
    | [f0], _, _ => rfl
    | [f0, f1], _, _ => rfl
  refine ⟨key, ?_⟩
  intro m hm
  rw [key] at hm
  cases hm

/-- C2 on the empty input, whose line has the one field `""`. -/
theorem parseFileFDStats_short_line_witness :
    (Split (Scan { data := "", err := none }).Text '\t').length < 3 ∧
    (parseFileFDStats { data := "", err := none } "file-nr"
        = .panic (.indexOutOfRange 2
            (Split (Scan { data := "", err := none }).Text '\t').length) ∧
      ∀ m, parseFileFDStats { data := "", err := none } "file-nr" ≠ .ok m) :=
  ⟨by decide, parseFileFDStats_short_line _ "file-nr" (by decide)⟩

/-! ## `Update`: claims C4 and C6 to C10 -/

/-- C4. When the reader fails, because the file cannot be opened or because its first
line has fewer than three tab-separated fields, `Update` fails (with an error in the
first case, with the panic of the reader in the second), the collector is as it was
before the call, no gauge is made and nothing is sent on the channel. -/
theorem Update_reader_fails (h : Host) (w : Cycle) (c : fileFDStatCollector)
    (hfail : (∃ e, w.osOpen (h.procFilePath "sys/fs/file-nr") = .error e) ∨
      (∃ r, w.osOpen (h.procFilePath "sys/fs/file-nr") = .ok r ∧
        (Split (Scan r).Text '\t').length < 3)) :
    (Update h w c).out ≠ .ok () ∧ (Update h w c).c = c ∧ (Update h w c).made = [] ∧
      (Update h w c).sent = [] := by
  rcases hfail with ⟨e, he⟩ | ⟨r, hr, hlen⟩
  · rw [Update_of_err h w c e (getFileFDStats_of_error _ _ e he)]
    simp
  · have hp : getFileFDStats w.osOpen (h.procFilePath "sys/fs/file-nr")
        = .panic (.indexOutOfRange 2 (Split (Scan r).Text '\t').length) := by
      rw [getFileFDStats_of_ok _ _ r hr, parseFileFDStats_eq]
      have hne := Split_ne_nil (Scan r).Text '\t'
      generalize Split (Scan r).Text '\t' = line at hlen hne
      match line, hlen, hne with
      | [f0], _, _ => rfl
      | [f0, f1], _, _ => rfl
    rw [Update_of_panic h w c _ hp]
    simp

/-- C4 on a line of one field, with a collector that holds a gauge. -/
theorem Update_reader_fails_witness :
    ((∃ e, (cycleOf "1234").osOpen (nodeHost.procFilePath "sys/fs/file-nr") = .error e) ∨
      (∃ r, (cycleOf "1234").osOpen (nodeHost.procFilePath "sys/fs/file-nr") = .ok r ∧
        (Split (Scan r).Text '\t').length < 3)) ∧
    ((Update nodeHost (cycleOf "1234")
        { metrics := [("allocated", NewGauge (gaugeOpts nodeHost "allocated"))] }).out ≠ .ok () ∧
      (Update nodeHost (cycleOf "1234")
        { metrics := [("allocated", NewGauge (gaugeOpts nodeHost "allocated"))] }).c
        = { metrics := [("allocated", NewGauge (gaugeOpts nodeHost "allocated"))] } ∧
      (Update nodeHost (cycleOf "1234")
        { metrics := [("allocated", NewGauge (gaugeOpts nodeHost "allocated"))] }).made = [] ∧
      (Update nodeHost (cycleOf "1234")
        { metrics := [("allocated", NewGauge (gaugeOpts nodeHost "allocated"))] }).sent = []) :=
  ⟨Or.inr ⟨{ data := "1234", err := none }, rfl, by decide⟩,
    Update_reader_fails nodeHost (cycleOf "1234") _
      (Or.inr ⟨{ data := "1234", err := none }, rfl, by decide⟩)⟩

/-- C6. When the loop of `Update` first visits a name whose text parses to `v` and then
a name whose text does not parse, `Update` fails with the error of the second text, and
the gauge of the first name holds `v` after the call, whatever it held before. -/
theorem Update_no_rollback (h : Host) (w : Cycle) (c : fileFDStatCollector)
    (stat : GoMap String) (n1 t1 n2 t2 : String) (v : Float64) (e : GoError)
    (hstat : getFileFDStats w.osOpen (h.procFilePath "sys/fs/file-nr") = .ok stat)
    (hvisit : w.statOrder.visit stat = [(n1, t1), (n2, t2)])
    (hp1 : h.ParseFloat t1 = .ok v) (hp2 : h.ParseFloat t2 = .error e) :
    (Update h w c).out = .err (errInvalidValue t2 e) ∧
      ∃ g, (Update h w c).c.metrics.get? n1 = some g ∧ g.value = v := by
  obtain ⟨f0, f2, rfl⟩ := getFileFDStats_ok _ _ stat hstat
  have hnd := visit_stat_nodup w.statOrder f0 f2
  rw [hvisit] at hnd
  have hne : n1 ≠ n2 := by
    intro heq
    simp [heq] at hnd
  rw [Update_of_stat h w c _ hstat, hvisit,
    rangeStat_cons_ok h n1 t1 _ _ v hp1, rangeStat_cons_error h n2 t2 _ _ e hp2]
  refine ⟨rfl, ((c.metrics.get? n1).getD (NewGauge (gaugeOpts h n1))).Set v, ?_, rfl⟩
  show (ensureGauge h n2 (storeGauge h n1 v { c := c, made := [] })).c.metrics.get? n1 = _
  rw [ensureGauge_get?_ne h n2 n1 _ hne, storeGauge_get?_self]

/-- C6 on the line `1234 TAB 0 TAB abc`, visited first to last, with a collector whose
gauge `allocated` held zero: the call fails and the gauge holds 1234.0. -/
theorem Update_no_rollback_witness :
    getFileFDStats (cycleOf "1234\t0\tabc\n").osOpen (nodeHost.procFilePath "sys/fs/file-nr")
        = .ok [("allocated", "1234"), ("maximum", "abc")] ∧
    (cycleOf "1234\t0\tabc\n").statOrder.visit [("allocated", "1234"), ("maximum", "abc")]
        = [("allocated", "1234"), ("maximum", "abc")] ∧
    nodeHost.ParseFloat "1234" = .ok ⟨0x4093480000000000⟩ ∧
    nodeHost.ParseFloat "abc" = .error (numError "abc" "invalid syntax") ∧
    ((Update nodeHost (cycleOf "1234\t0\tabc\n")
        { metrics := [("allocated", NewGauge (gaugeOpts nodeHost "allocated"))] }).out
        = .err (errInvalidValue "abc" (numError "abc" "invalid syntax")) ∧
      ∃ g, (Update nodeHost (cycleOf "1234\t0\tabc\n")
          { metrics := [("allocated", NewGauge (gaugeOpts nodeHost "allocated"))] }).c.metrics.get?
            "allocated" = some g ∧
        g.value = ⟨0x4093480000000000⟩) :=
  ⟨by decide, rfl, by decide, by decide,
    Update_no_rollback nodeHost (cycleOf "1234\t0\tabc\n") _ _ "allocated" "1234" "maximum"
      "abc" _ _ (by decide) rfl (by decide) (by decide)⟩

/-- C7. `Update` is idempotent on an unchanged source: when a call succeeds, a second
call that meets the same files also succeeds, whatever the orders of its loops, makes
no gauge and leaves the collector exactly as the first call left it (same names, same
number of gauges, same values); it sends the same gauges. -/
theorem Update_idempotent (h : Host) (w w' : Cycle) (c : fileFDStatCollector)
    (hsame : w'.osOpen = w.osOpen) (hok : (Update h w c).out = .ok ()) :
    (Update h w' (Update h w c).c).out = .ok () ∧
      (Update h w' (Update h w c).c).c = (Update h w c).c ∧
      (Update h w' (Update h w c).c).made = [] ∧
      (Update h w' (Update h w c).c).sent.Perm (Update h w c).sent := by
  cases hs : getFileFDStats w.osOpen (h.procFilePath "sys/fs/file-nr") with
  | err e => rw [Update_of_err h w c e hs] at hok; cases hok
  | panic p => rw [Update_of_panic h w c p hs] at hok; cases hok
  | ok stat =>
    obtain ⟨f0, f2, rfl⟩ := getFileFDStats_ok _ _ stat hs
    have hs' : getFileFDStats w'.osOpen (h.procFilePath "sys/fs/file-nr")
        = .ok [("allocated", f0), ("maximum", f2)] := by rw [hsame]; exact hs
    have e1 := Update_of_stat h w c _ hs
    have hok1 : (rangeStat h (w.statOrder.visit [("allocated", f0), ("maximum", f2)])
        { c := c, made := [] }).1 = .ok () := by
      rw [e1] at hok; exact hok
    have hfix : rangeStat h (w'.statOrder.visit [("allocated", f0), ("maximum", f2)])
        { c := (Update h w c).c, made := [] } = (.ok (), { c := (Update h w c).c, made := [] }) := by
      apply rangeStat_fixed
      intro x hx
      have hx' : x ∈ w.statOrder.visit [("allocated", f0), ("maximum", f2)] :=
        (visit_stat_mem w.statOrder f0 f2 x).2 ((visit_stat_mem w'.statOrder f0 f2 x).1 hx)
      obtain ⟨g, hg, hp⟩ := rangeStat_get?_visited h _ { c := c, made := [] }
        (visit_stat_nodup w.statOrder f0 f2) hok1 x.1 x.2 hx'
      refine ⟨g, ?_, hp⟩
      rw [e1]
      exact hg
    rw [Update_of_stat h w' (Update h w c).c _ hs', hfix]
    refine ⟨rfl, rfl, rfl, ?_⟩
    simp only [if_true]
    conv_rhs => rw [e1]
    simp only [hok1, if_true]
    rw [e1]
    exact ((w'.metricOrder.perm _).trans (w.metricOrder.perm _).symm).map Prod.snd

/-- C7 on the line `1234 TAB 0 TAB 9876`, the second call with its loops in the other
order. -/
theorem Update_idempotent_witness :
    (cycleReversed "1234\t0\t9876\n").osOpen = (cycleOf "1234\t0\t9876\n").osOpen ∧
    (Update nodeHost (cycleOf "1234\t0\t9876\n") { metrics := [] }).out = .ok () ∧
    ((Update nodeHost (cycleReversed "1234\t0\t9876\n")
        (Update nodeHost (cycleOf "1234\t0\t9876\n") { metrics := [] }).c).out = .ok () ∧
      (Update nodeHost (cycleReversed "1234\t0\t9876\n")
        (Update nodeHost (cycleOf "1234\t0\t9876\n") { metrics := [] }).c).c
        = (Update nodeHost (cycleOf "1234\t0\t9876\n") { metrics := [] }).c ∧
      (Update nodeHost (cycleReversed "1234\t0\t9876\n")
        (Update nodeHost (cycleOf "1234\t0\t9876\n") { metrics := [] }).c).made = [] ∧
      (Update nodeHost (cycleReversed "1234\t0\t9876\n")
        (Update nodeHost (cycleOf "1234\t0\t9876\n") { metrics := [] }).c).sent.Perm
        (Update nodeHost (cycleOf "1234\t0\t9876\n") { metrics := [] }).sent) :=
  ⟨rfl, by decide,
    Update_idempotent nodeHost (cycleOf "1234\t0\t9876\n") (cycleReversed "1234\t0\t9876\n")
      { metrics := [] } rfl (by decide)⟩

/-- The loop never makes the map shorter. -/
theorem rangeStat_length (h : Host) (l : List (String × String)) (s : LoopState) :
    s.c.metrics.length ≤ (rangeStat h l s).2.c.metrics.length := by
  have hlen : ∀ m : GoMap Gauge, m.length = (GoMap.keys m).length := by
    intro m; simp [GoMap.keys]
  have step : ∀ (n : String) (s : LoopState),
      s.c.metrics.length ≤ (ensureGauge h n s).c.metrics.length := by
    intro n s
    rw [hlen, hlen, ensureGauge_keys]
    split <;> simp
  induction l generalizing s with
  | nil => simp [rangeStat_nil]
  | cons x rest ih =>
    obtain ⟨n, t⟩ := x
    cases hp : h.ParseFloat t with
    | error e =>
      rw [rangeStat_cons_error h n t rest s e hp]
      exact step n s
    | ok v =>
      rw [rangeStat_cons_ok h n t rest s v hp]
      refine Nat.le_trans ?_ (ih _)
      rw [hlen (storeGauge h n v s).c.metrics, storeGauge_keys, ← hlen]
      exact step n s

/-- C8. The registry only grows. However a call of `Update` ends, every name that has
a gauge before it has one after it, and the registry has at least as many gauges. When
the call succeeds and the mapping of the reader omits a name that is in the registry,
the gauge of that name is the same after the call, value included, and it is among the
gauges sent on the channel. -/
theorem Update_registry_grows (h : Host) (w : Cycle) (c : fileFDStatCollector) :
    (∀ name g, c.metrics.get? name = some g →
        ∃ g', (Update h w c).c.metrics.get? name = some g') ∧
      c.metrics.length ≤ (Update h w c).c.metrics.length ∧
      ∀ stat name g,
        getFileFDStats w.osOpen (h.procFilePath "sys/fs/file-nr") = .ok stat →
        (Update h w c).out = .ok () → name ∉ GoMap.keys stat →
        c.metrics.get? name = some g →
        (Update h w c).c.metrics.get? name = some g ∧ g ∈ (Update h w c).sent := by
  refine ⟨?_, ?_, ?_⟩
  · intro name g hg
    obtain ⟨g', hg', _⟩ := Update_get?_opts h w c name g hg
    exact ⟨g', hg'⟩
  · cases hs : getFileFDStats w.osOpen (h.procFilePath "sys/fs/file-nr") with
    | err e => rw [Update_of_err h w c e hs]
    | panic p => rw [Update_of_panic h w c p hs]
    | ok stat =>
      rw [Update_of_stat h w c stat hs]
      exact rangeStat_length h _ { c := c, made := [] }
  · intro stat name g hs hok hname hg
    have hnv : name ∉ (w.statOrder.visit stat).map Prod.fst := by
      intro hin
      exact hname (((w.statOrder.perm stat).map Prod.fst).mem_iff.1 hin)
    have hget := rangeStat_get?_not_visited h (w.statOrder.visit stat)
      { c := c, made := [] } name hnv
    rw [Update_of_stat h w c stat hs] at hok ⊢
    simp only at hok
    simp only [hok, if_true]
    refine ⟨hget.trans hg, ?_⟩
    exact List.mem_map.2 ⟨(name, g),
      (w.metricOrder.perm _).mem_iff.2 (GoMap.mem_of_get? _ _ _ (hget.trans hg)), rfl⟩

/-- C8 on a collector that holds a gauge `spare`, a name the reader never gives: after
a successful call the gauge is unchanged and was sent. -/
theorem Update_registry_grows_witness :
    (∃ g', (Update nodeHost (cycleOf "1234\t0\t9876\n")
        { metrics := [("spare", ⟨gaugeOpts nodeHost "spare", ⟨7⟩⟩)] }).c.metrics.get? "spare"
          = some g') ∧
    ((Update nodeHost (cycleOf "1234\t0\t9876\n")
        { metrics := [("spare", ⟨gaugeOpts nodeHost "spare", ⟨7⟩⟩)] }).c.metrics.get? "spare"
          = some ⟨gaugeOpts nodeHost "spare", ⟨7⟩⟩ ∧
      (⟨gaugeOpts nodeHost "spare", ⟨7⟩⟩ : Gauge) ∈
        (Update nodeHost (cycleOf "1234\t0\t9876\n")
          { metrics := [("spare", ⟨gaugeOpts nodeHost "spare", ⟨7⟩⟩)] }).sent) :=
  ⟨(Update_registry_grows nodeHost (cycleOf "1234\t0\t9876\n")
      { metrics := [("spare", ⟨gaugeOpts nodeHost "spare", ⟨7⟩⟩)] }).1 "spare" _ rfl,
    (Update_registry_grows nodeHost (cycleOf "1234\t0\t9876\n")
      { metrics := [("spare", ⟨gaugeOpts nodeHost "spare", ⟨7⟩⟩)] }).2.2
      [("allocated", "1234"), ("maximum", "9876")] "spare" _ (by decide) (by decide)
      (by decide) rfl⟩

/-- C9. For a collector that a program can hold (a new one, after any calls of
`Update`) and a call of `Update` that succeeds, the reader gave a mapping, and every
gauge sent on the channel holds the value that `ParseFloat` gives for the text which
that mapping has under the name of the gauge. -/
theorem Update_sends_fresh_values (h : Host) (w : Cycle) (c : fileFDStatCollector)
    (hreach : Reachable h c) (hok : (Update h w c).out = .ok ()) :
    ∃ stat, getFileFDStats w.osOpen (h.procFilePath "sys/fs/file-nr") = .ok stat ∧
      ∀ g ∈ (Update h w c).sent, ∃ text, stat.get? g.opts.Name = some text ∧
        h.ParseFloat text = .ok g.value := by
  have hinv := Invariant_Update h w c (Reachable.invariant h c hreach)
  cases hs : getFileFDStats w.osOpen (h.procFilePath "sys/fs/file-nr") with
  | err e => rw [Update_of_err h w c e hs] at hok; cases hok
  | panic p => rw [Update_of_panic h w c p hs] at hok; cases hok
  | ok stat =>
    obtain ⟨f0, f2, rfl⟩ := getFileFDStats_ok _ _ stat hs
    refine ⟨_, rfl, ?_⟩
    have e1 := Update_of_stat h w c _ hs
    have hok1 : (rangeStat h (w.statOrder.visit [("allocated", f0), ("maximum", f2)])
        { c := c, made := [] }).1 = .ok () := by
      rw [e1] at hok; exact hok
    intro g hg
    have hsent : (Update h w c).sent = rangeCollect w.metricOrder (Update h w c).c := by
      rw [e1]; simp only [hok1, if_true]
    rw [hsent] at hg
    obtain ⟨x, hx, rfl⟩ := List.mem_map.1 hg
    obtain ⟨k, g⟩ := x
    have hmem : (k, g) ∈ (Update h w c).c.metrics := (w.metricOrder.perm _).mem_iff.1 hx
    have hget := GoMap.get?_of_mem_nodup _ k g hmem hinv.1
    have hname : g.opts.Name = k := hinv.2.2 k g hget
    have hk := hinv.2.1 k (List.mem_map_of_mem Prod.fst hmem)
    have hvis : ∀ t, (k, t) ∈ w.statOrder.visit [("allocated", f0), ("maximum", f2)] →
        h.ParseFloat t = .ok g.value := by
      intro t ht
      obtain ⟨g', h1, h2⟩ := rangeStat_get?_visited h _ { c := c, made := [] }
        (visit_stat_nodup w.statOrder f0 f2) hok1 k t ht
      rw [e1] at hget
      rw [hget] at h1
      cases h1
      exact h2
    show ∃ text, GoMap.get? [("allocated", f0), ("maximum", f2)] g.opts.Name = some text ∧ _
    rw [hname]
    rcases hk with rfl | rfl
    · exact ⟨f0, by simp [GoMap.get?],
        hvis f0 ((visit_stat_mem w.statOrder f0 f2 _).2 (Or.inl rfl))⟩
    · exact ⟨f2, by simp [GoMap.get?],
        hvis f2 ((visit_stat_mem w.statOrder f0 f2 _).2 (Or.inr rfl))⟩

/-- C9 on a collector left by a call that failed on `abc TAB 0 TAB 1`, which holds the
gauge `allocated` at zero, and a call on `1234 TAB 0 TAB 9876`. -/
theorem Update_sends_fresh_values_witness :
    (Update nodeHost (cycleOf "1234\t0\t9876\n")
        (Update nodeHost (cycleOf "abc\t0\t1\n") { metrics := [] }).c).out = .ok () ∧
    ∃ stat, getFileFDStats (cycleOf "1234\t0\t9876\n").osOpen
          (nodeHost.procFilePath "sys/fs/file-nr") = .ok stat ∧
      ∀ g ∈ (Update nodeHost (cycleOf "1234\t0\t9876\n")
          (Update nodeHost (cycleOf "abc\t0\t1\n") { metrics := [] }).c).sent,
        ∃ text, stat.get? g.opts.Name = some text ∧ nodeHost.ParseFloat text = .ok g.value :=
  ⟨by decide,
    Update_sends_fresh_values nodeHost (cycleOf "1234\t0\t9876\n") _
      (Reachable.update (cycleOf "abc\t0\t1\n") _ (Reachable.new _ rfl)) (by decide)⟩

/-- C10. `Update` calls `prometheus.NewGauge` for a name only when the registry has no
entry for it, with the namespace of the package, the subsystem `filefd`, the name, and
the help text `File descriptor statistics: NAME.`, and the gauge made becomes the entry
of the name. A name that has an entry before the call gets no new gauge: its entry
after the call has the options it had. Over any run of calls of `Update`, from any
collector, no two calls of `prometheus.NewGauge` are for the same name, and none is
for a name that had an entry at the start. -/
theorem Update_creates_once (h : Host) (w : Cycle) (ws : List Cycle)
    (c : fileFDStatCollector) :
    (∀ o ∈ (Update h w c).made,
        c.metrics.get? o.Name = none ∧ o.Namespace = h.Namespace ∧
        o.Subsystem = "filefd" ∧
        o.Help = "File descriptor statistics: " ++ o.Name ++ "." ∧
        ∃ g, (Update h w c).c.metrics.get? o.Name = some g ∧ g.opts = o) ∧
      (∀ name g, c.metrics.get? name = some g →
        name ∉ (Update h w c).made.map GaugeOpts.Name ∧
        ∃ g', (Update h w c).c.metrics.get? name = some g' ∧ g'.opts = g.opts) ∧
      ((runUpdates h ws c).2.map GaugeOpts.Name).Nodup ∧
      ∀ o ∈ (runUpdates h ws c).2, c.metrics.get? o.Name = none := by
  obtain ⟨_, m2⟩ := Update_made h w c
  refine ⟨?_, ?_, (runUpdates_made h ws c).1, (runUpdates_made h ws c).2⟩
  · intro o ho
    obtain ⟨h1, h2, h3⟩ := m2 o ho
    refine ⟨h1, ?_, ?_, ?_, h3⟩
    · rw [h2]; rfl
    · rw [h2]; rfl
    · rw [h2]; rfl
  · intro name g hg
    refine ⟨?_, Update_get?_opts h w c name g hg⟩
    intro hin
    obtain ⟨o, ho, rfl⟩ := List.mem_map.1 hin
    rw [(m2 o ho).1] at hg
    cases hg

/-! ## The scanner and the first line -/

theorem takeWhile_line (l rest : List Char) (hl : '\n' ∉ l) :
    (l ++ '\n' :: rest).takeWhile (fun c => c ≠ '\n') = l := by
  have hp : ∀ a ∈ l, (fun c : Char => decide (c ≠ '\n')) a = true := by
    intro a ha
    have hne : a ≠ '\n' := fun e => hl (e ▸ ha)
    simpa using hne
  rw [List.takeWhile_append_of_pos hp]
  simp

theorem takeWhile_whole (l : List Char) (hl : '\n' ∉ l) :
    l.takeWhile (fun c => c ≠ '\n') = l := by
  rw [List.takeWhile_eq_self_iff]
  intro a ha
  have hne : a ≠ '\n' := fun e => hl (e ▸ ha)
  simpa using hne

/-- The text of the first scan is the same for a line alone and for the line followed
by a newline and more text, whatever the readers end with. -/
theorem Scan_Text_line (L rest : String) (e e' : Option GoError) (hL : '\n' ∉ L.data) :
    (Scan { data := L ++ "\n" ++ rest, err := e }).Text = (Scan { data := L, err := e' }).Text := by
  have hd : (L ++ "\n" ++ rest).data = L.data ++ '\n' :: rest.data := by
    simp [String.data_append]
  simp only [Scan, Scanner.Text, hd, takeWhile_line _ _ hL, takeWhile_whole _ hL]
  split <;> rfl

/-- The text of the first scan has no newline. -/
theorem Scan_Text_no_newline (r : Reader) : '\n' ∉ (Scan r).Text.data := by
  simp only [Scan, Scanner.Text]
  split
  · simp
  · intro hmem
    have hsub : dropCR (r.data.data.takeWhile (fun c => c ≠ '\n'))
        ⊆ r.data.data.takeWhile (fun c => c ≠ '\n') := by
      unfold dropCR
      split
      · exact (List.dropLast_sublist _).subset
      · exact List.Subset.refl _
    have := List.mem_takeWhile_imp (hsub hmem)
    simp at this

/-- A field of a split has only characters of the text split. -/
theorem mem_of_mem_splitChars (sep : Char) (l f : List Char) (hf : f ∈ splitChars sep l)
    (c : Char) (hc : c ∈ f) : c ∈ l := by
  induction l generalizing f with
  | nil =>
    simp only [splitChars, List.mem_singleton] at hf
    subst hf
    exact hc
  | cons a as ih =>
    simp only [splitChars] at hf
    split at hf
    · rcases List.mem_cons.1 hf with rfl | hin
      · cases hc
      · exact List.mem_cons_of_mem _ (ih f hin hc)
    · have hne := splitChars_ne_nil sep as
      cases hs : splitChars sep as with
      | nil => exact absurd hs hne
      | cons g gs =>
        rw [hs] at hf ih
        simp only at hf
        rcases List.mem_cons.1 hf with rfl | hin
        · rcases List.mem_cons.1 hc with rfl | hc'
          · exact List.mem_cons_self _ _
          · exact List.mem_cons_of_mem _ (ih g (List.mem_cons_self _ _) hc')
        · exact List.mem_cons_of_mem _ (ih f (List.mem_cons_of_mem _ hin) hc)

theorem mem_of_mem_Split (s f : String) (sep : Char) (hf : f ∈ Split s sep) (c : Char)
    (hc : c ∈ f.data) : c ∈ s.data := by
  simp only [Split, List.mem_map] at hf
  obtain ⟨g, hg, rfl⟩ := hf
  exact mem_of_mem_splitChars sep s.data g hg c hc

/-- `parseFileFDStats` never returns a non-nil error. -/
theorem parseFileFDStats_no_err (r : Reader) (fileName : String) (e : GoError) :
    parseFileFDStats r fileName ≠ .err e := by
  rw [parseFileFDStats_eq]
  split <;> simp

/-- The outcome of `parseFileFDStats` is a function of the text of the first scan. -/
theorem parseFileFDStats_congr (r r' : Reader) (fileName fileName' : String)
    (ht : (Scan r).Text = (Scan r').Text) :
    parseFileFDStats r fileName = parseFileFDStats r' fileName' := by
  rw [parseFileFDStats_eq, parseFileFDStats_eq, ht]

/-! ## Failures of the reader: claims C11 and C12 -/

/-- C11 does not hold of the code. On a file whose first line is `1234`, which has one
field, `Update` does not return an error value: it ends in the index-out-of-range panic
of `line[2]`. On a file that cannot be opened it returns the error
`couldn't get file-nr: ...`. -/
theorem Update_short_line_panics :
    (Update nodeHost (cycleOf "1234\n") { metrics := [] }).out
        = .panic (.indexOutOfRange 2 1) ∧
      (∀ e, (Update nodeHost (cycleOf "1234\n") { metrics := [] }).out ≠ .err e) ∧
      (Update nodeHost (cycleOn noFile) { metrics := [] }).out
        = .err ⟨"couldn't get file-nr: open /proc/sys/fs/file-nr: no such file or directory"⟩ := by
  have h1 : (Update nodeHost (cycleOf "1234\n") { metrics := [] }).out
      = .panic (.indexOutOfRange 2 1) := by decide
  refine ⟨h1, ?_, by decide⟩
  intro e he
  rw [h1] at he
  cases he

/-- C12 does not hold of the code. A reader that delivers `1234 TAB 0 TAB 98` and then
fails with an input/output error makes `parseFileFDStats` return the mapping of the text
read so far, with `98` under `maximum`, and no error; `Update` then succeeds and sets
the gauge `maximum` to 98.0 (bit pattern 0x4058800000000000). The scanner holds the
read error, and the code never asks for it. -/
theorem parseFileFDStats_drops_read_error :
    (Scan { data := "1234\t0\t98", err := some ⟨"read /proc/sys/fs/file-nr: input/output error"⟩ }).err
        = some ⟨"read /proc/sys/fs/file-nr: input/output error"⟩ ∧
      parseFileFDStats
          { data := "1234\t0\t98", err := some ⟨"read /proc/sys/fs/file-nr: input/output error"⟩ }
          "/proc/sys/fs/file-nr"
        = .ok [("allocated", "1234"), ("maximum", "98")] ∧
      (Update nodeHost
          (cycleOn (fileFailing "1234\t0\t98" ⟨"read /proc/sys/fs/file-nr: input/output error"⟩))
          { metrics := [] }).out = .ok () ∧
      (Update nodeHost
          (cycleOn (fileFailing "1234\t0\t98" ⟨"read /proc/sys/fs/file-nr: input/output error"⟩))
          { metrics := [] }).c.metrics.get? "maximum"
        = some ⟨gaugeOpts nodeHost "maximum", ⟨0x4058800000000000⟩⟩ := by
  decide

/-! ## The first line: claims C13 to C15 -/

/-- C13. The tab is the only separator. When the first line, as the scanner delivers
it, has no tab, however many spaces it has, the split gives the one field that is the
whole line, and `parseFileFDStats` returns no mapping: it ends in the panic of
`line[2]` on a slice of length one. -/
theorem parseFileFDStats_no_tab (r : Reader) (fileName : String)
    (hno : '\t' ∉ (Scan r).Text.data) :
    Split (Scan r).Text '\t' = [(Scan r).Text] ∧
      parseFileFDStats r fileName = .panic (.indexOutOfRange 2 1) ∧
      ∀ m, parseFileFDStats r fileName ≠ .ok m := by
  have hsplit : Split (Scan r).Text '\t' = [(Scan r).Text] := by
    simp [Split, splitChars_of_not_mem _ _ hno]
  have hp : parseFileFDStats r fileName = .panic (.indexOutOfRange 2 1) := by
    rw [parseFileFDStats_eq, hsplit]
    rfl
  refine ⟨hsplit, hp, ?_⟩
  intro m hm
  rw [hp] at hm
  cases hm

/-- C13 on the line `1234 0 9876`, which has three fields between spaces. -/
theorem parseFileFDStats_no_tab_witness :
    '\t' ∉ (Scan { data := "1234 0 9876\n", err := none }).Text.data ∧
    (Split (Scan { data := "1234 0 9876\n", err := none }).Text '\t'
        = [(Scan { data := "1234 0 9876\n", err := none }).Text] ∧
      parseFileFDStats { data := "1234 0 9876\n", err := none } "file-nr"
        = .panic (.indexOutOfRange 2 1) ∧
      ∀ m, parseFileFDStats { data := "1234 0 9876\n", err := none } "file-nr" ≠ .ok m) :=
  ⟨by decide, parseFileFDStats_no_tab _ "file-nr" (by decide)⟩

/-- C14. `NewFileFDStatCollector` never fails: it returns, with a nil error, a collector
whose registry is empty. -/
theorem NewFileFDStatCollector_ok :
    (∃ c, NewFileFDStatCollector = .ok c ∧ c.metrics = []) ∧
      (∀ e, NewFileFDStatCollector ≠ .err e) ∧ ∀ p, NewFileFDStatCollector ≠ .panic p := by
  refine ⟨⟨{ metrics := [] }, rfl, rfl⟩, ?_, ?_⟩
  · intro e he
    cases he
  · intro p hp
    cases hp

/-- C15. Only the first line counts. For a text `L` without newline, `parseFileFDStats`
gives on `L`, a newline and any further text `rest` the outcome it gives on `L` alone,
the same mapping or the same failure, whatever the two readers end with; and in a
mapping it returns, the text under `maximum` has no newline. -/
theorem parseFileFDStats_first_line_only (L rest : String) (e e' : Option GoError)
    (fileName : String) (hL : '\n' ∉ L.data) :
    parseFileFDStats { data := L ++ "\n" ++ rest, err := e } fileName
        = parseFileFDStats { data := L, err := e' } fileName ∧
      ∀ m v, parseFileFDStats { data := L ++ "\n" ++ rest, err := e } fileName = .ok m →
        m.get? "maximum" = some v → '\n' ∉ v.data := by
  refine ⟨parseFileFDStats_congr _ _ _ _ (Scan_Text_line L rest e e' hL), ?_⟩
  intro m v hm hv
  obtain ⟨f0, f2, _, h2, rfl⟩ := parseFileFDStats_ok _ _ m hm
  simp [GoMap.get?] at hv
  subst hv
  intro hmem
  have hin : f2 ∈ Split (Scan { data := L ++ "\n" ++ rest, err := e }).Text '\t' :=
    List.get?_mem h2
  exact Scan_Text_no_newline _ (mem_of_mem_Split _ _ _ hin _ hmem)

/-- C15 on the line `1234 TAB 0 TAB 9876` followed by two more lines. -/
theorem parseFileFDStats_first_line_only_witness :
    '\n' ∉ "1234\t0\t9876".data ∧
    (parseFileFDStats { data := "1234\t0\t9876" ++ "\n" ++ "second\nthird\n", err := none }
          "file-nr"
        = parseFileFDStats { data := "1234\t0\t9876", err := none } "file-nr" ∧
      ∀ m v,
        parseFileFDStats { data := "1234\t0\t9876" ++ "\n" ++ "second\nthird\n", err := none }
          "file-nr" = .ok m →
        m.get? "maximum" = some v → '\n' ∉ v.data) :=
  ⟨by decide, parseFileFDStats_first_line_only "1234\t0\t9876" "second\nthird\n" none none
    "file-nr" (by decide)⟩

/-! ## The order of the first loop: claim C16 -/

theorem GoMap.set_set {α : Type} (m : GoMap α) (k : String) (x y : α) :
    (m.set k x).set k y = m.set k y := by
  induction m with
  | nil => simp [GoMap.set]
  | cons p rest ih =>
    obtain ⟨k', v'⟩ := p
    by_cases hk : k' = k
    · simp [GoMap.set, hk]
    · simp [GoMap.set, hk, ih]

/-- Assignments to two different keys give the same entries in either order. -/
theorem GoMap.set_comm_perm {α : Type} (m : GoMap α) (k₁ k₂ : String) (x₁ x₂ : α)
    (hne : k₁ ≠ k₂) :
    ((m.set k₁ x₁).set k₂ x₂).Perm ((m.set k₂ x₂).set k₁ x₁) := by
  induction m with
  | nil =>
    simp only [GoMap.set, hne, Ne.symm hne, if_false]
    exact List.Perm.swap _ _ _
  | cons p rest ih =>
    obtain ⟨k, v⟩ := p
    by_cases h1 : k = k₁
    · subst h1
      simp [GoMap.set, hne]
    · by_cases h2 : k = k₂
      · subst h2
        simp [GoMap.set, h1]
      · simp only [GoMap.set, h1, h2, if_false]
        exact List.Perm.cons _ ih

theorem GoMap.get?_set_set_comm {α : Type} (m : GoMap α) (k₁ k₂ k : String) (x₁ x₂ : α)
    (hne : k₁ ≠ k₂) :
    ((m.set k₁ x₁).set k₂ x₂).get? k = ((m.set k₂ x₂).set k₁ x₁).get? k := by
  by_cases h1 : k = k₁
  · subst h1
    rw [GoMap.get?_set_ne _ _ _ _ hne, GoMap.get?_set_self, GoMap.get?_set_self]
  · by_cases h2 : k = k₂
    · subst h2
      rw [GoMap.get?_set_self, GoMap.get?_set_ne _ _ _ _ h1, GoMap.get?_set_self]
    · rw [GoMap.get?_set_ne _ _ _ _ h2, GoMap.get?_set_ne _ _ _ _ h1,
        GoMap.get?_set_ne _ _ _ _ h1, GoMap.get?_set_ne _ _ _ _ h2]

/-- The map after one iteration that sets a gauge, as one assignment to the map
before. -/
theorem storeGauge_metrics (h : Host) (n : String) (v : Float64) (s : LoopState) :
    (storeGauge h n v s).c.metrics
      = s.c.metrics.set n (((s.c.metrics.get? n).getD (NewGauge (gaugeOpts h n))).Set v) := by
  rw [storeGauge_eq]
  cases hg : s.c.metrics.get? n with
  | some g => simp [ensureGauge_of_some h n s g hg]
  | none => simp [ensureGauge_of_none h n s hg, GoMap.set_set]

/-- The maps after two iterations that set the gauges of two different names, taken in
the two orders: the same entry under every name, and the same entries. -/
theorem storeGauge_comm (h : Host) (n₁ n₂ : String) (v₁ v₂ : Float64) (s : LoopState)
    (hne : n₁ ≠ n₂) :
    (∀ k, (storeGauge h n₂ v₂ (storeGauge h n₁ v₁ s)).c.metrics.get? k
        = (storeGauge h n₁ v₁ (storeGauge h n₂ v₂ s)).c.metrics.get? k) ∧
      (storeGauge h n₂ v₂ (storeGauge h n₁ v₁ s)).c.metrics.Perm
        (storeGauge h n₁ v₁ (storeGauge h n₂ v₂ s)).c.metrics := by
  have e1 : (storeGauge h n₂ v₂ (storeGauge h n₁ v₁ s)).c.metrics
      = (s.c.metrics.set n₁ (((s.c.metrics.get? n₁).getD (NewGauge (gaugeOpts h n₁))).Set v₁)).set
          n₂ (((s.c.metrics.get? n₂).getD (NewGauge (gaugeOpts h n₂))).Set v₂) := by
    rw [storeGauge_metrics, storeGauge_get?_ne h n₁ n₂ v₁ s (Ne.symm hne), storeGauge_metrics]
  have e2 : (storeGauge h n₁ v₁ (storeGauge h n₂ v₂ s)).c.metrics
      = (s.c.metrics.set n₂ (((s.c.metrics.get? n₂).getD (NewGauge (gaugeOpts h n₂))).Set v₂)).set
          n₁ (((s.c.metrics.get? n₁).getD (NewGauge (gaugeOpts h n₁))).Set v₁) := by
    rw [storeGauge_metrics, storeGauge_get?_ne h n₂ n₁ v₂ s hne, storeGauge_metrics]
  rw [e1, e2]
  exact ⟨fun k => GoMap.get?_set_set_comm _ _ _ k _ _ hne, GoMap.set_comm_perm _ _ _ _ _ hne⟩

/-- A rearrangement of two entries is one of the two orders. -/
theorem perm_pair {α : Type} (l : List α) (a b : α) (hp : l.Perm [a, b]) :
    l = [a, b] ∨ l = [b, a] := by
  have hlen := hp.length_eq
  match l, hlen with
  | [x, y], _ =>
    have hx : x ∈ [a, b] := hp.mem_iff.1 (List.mem_cons_self _ _)
    simp only [List.mem_cons, List.mem_singleton, List.not_mem_nil, or_false] at hx
    rcases hx with rfl | rfl
    · have := (List.perm_cons x).1 hp
      rw [List.perm_singleton] at this
      exact Or.inl (by rw [this])
    · have hp' : [x, y].Perm [x, a] := hp.trans (List.Perm.swap _ _ _)
      have := (List.perm_cons x).1 hp'
      rw [List.perm_singleton] at this
      exact Or.inr (by rw [this])

/-- The first loop over the two entries of a mapping, when both texts parse: its
outcome in any order, up to the order of the entries of the registry. -/
theorem rangeStat_two_orders (h : Host) (order order' : RangeOrder String)
    (f0 f2 : String) (s : LoopState)
    (hok : (rangeStat h (order.visit [("allocated", f0), ("maximum", f2)]) s).1 = .ok ()) :
    (∀ k, (rangeStat h (order'.visit [("allocated", f0), ("maximum", f2)]) s).2.c.metrics.get? k
        = (rangeStat h (order.visit [("allocated", f0), ("maximum", f2)]) s).2.c.metrics.get? k) ∧
      (rangeStat h (order'.visit [("allocated", f0), ("maximum", f2)]) s).2.c.metrics.Perm
        (rangeStat h (order.visit [("allocated", f0), ("maximum", f2)]) s).2.c.metrics := by
  rw [rangeStat_ok_iff] at hok
  obtain ⟨v0, hv0⟩ := hok ("allocated", f0) ((visit_stat_mem order f0 f2 _).2 (Or.inl rfl))
  obtain ⟨v2, hv2⟩ := hok ("maximum", f2) ((visit_stat_mem order f0 f2 _).2 (Or.inr rfl))
  have hne : ("allocated" : String) ≠ "maximum" := by decide
  have ha : rangeStat h [("allocated", f0), ("maximum", f2)] s
      = (.ok (), storeGauge h "maximum" v2 (storeGauge h "allocated" v0 s)) := by
    rw [rangeStat_cons_ok h _ _ _ _ v0 hv0, rangeStat_cons_ok h _ _ _ _ v2 hv2, rangeStat_nil]
  have hm : rangeStat h [("maximum", f2), ("allocated", f0)] s
      = (.ok (), storeGauge h "allocated" v0 (storeGauge h "maximum" v2 s)) := by
    rw [rangeStat_cons_ok h _ _ _ _ v2 hv2, rangeStat_cons_ok h _ _ _ _ v0 hv0, rangeStat_nil]
  obtain ⟨c1, c2⟩ := storeGauge_comm h "allocated" "maximum" v0 v2 s hne
  rcases perm_pair _ _ _ (order.perm [("allocated", f0), ("maximum", f2)]) with e | e <;>
    rcases perm_pair _ _ _ (order'.perm [("allocated", f0), ("maximum", f2)]) with e' | e' <;>
    rw [e, e']
  · exact ⟨fun _ => rfl, List.Perm.refl _⟩
  · rw [ha, hm]
    exact ⟨fun k => (c1 k).symm, c2.symm⟩
  · rw [ha, hm]
    exact ⟨c1, c2⟩
  · exact ⟨fun _ => rfl, List.Perm.refl _⟩

/-- The first loop ends by an error exactly when it does not end normally. -/
theorem rangeStat_err_iff (h : Host) (l : List (String × String)) (s : LoopState) :
    (∃ e, (rangeStat h l s).1 = .err e) ↔ (rangeStat h l s).1 ≠ .ok () := by
  cases hr : (rangeStat h l s).1 with
  | ok u => simp
  | err e => simp
  | panic p => exact absurd hr (rangeStat_no_panic h l s p)

/-- Whether the first loop ends normally does not depend on the order of its visits. -/
theorem rangeStat_ok_order (h : Host) (order order' : RangeOrder String) (f0 f2 : String)
    (s s' : LoopState) :
    (rangeStat h (order'.visit [("allocated", f0), ("maximum", f2)]) s').1 = .ok () ↔
      (rangeStat h (order.visit [("allocated", f0), ("maximum", f2)]) s).1 = .ok () := by
  rw [rangeStat_ok_iff, rangeStat_ok_iff]
  constructor
  · intro hall x hx
    exact hall x ((visit_stat_mem order' f0 f2 x).2 ((visit_stat_mem order f0 f2 x).1 hx))
  · intro hall x hx
    exact hall x ((visit_stat_mem order f0 f2 x).2 ((visit_stat_mem order' f0 f2 x).1 hx))

/-- C16 as stated fails: on the line `abc TAB 0 TAB 9876` and an empty registry, the two
orders of the first loop both fail, and leave different registries. Visiting
`allocated` first, the loop stops there and the registry has no gauge `maximum`;
visiting `maximum` first, the registry has the gauge `maximum` at 9876.0. -/
theorem Update_order_matters_on_failure :
    (cycleReversed "abc\t0\t9876\n").osOpen = (cycleOf "abc\t0\t9876\n").osOpen ∧
      (Update nodeHost (cycleOf "abc\t0\t9876\n") { metrics := [] }).c.metrics.get? "maximum"
        = none ∧
      (Update nodeHost (cycleReversed "abc\t0\t9876\n") { metrics := [] }).c.metrics.get?
          "maximum"
        = some ⟨gaugeOpts nodeHost "maximum", ⟨0x40C34A0000000000⟩⟩ :=
  ⟨rfl, by decide, by decide⟩

/-- C16, amended. Two calls of `Update` that meet the same files and differ in the
orders of their loops end in the same way: both succeed, both return an error, or both
panic. When they succeed they leave the same gauge under every name, the same entries
in the registry, and they send the same gauges. -/
theorem Update_order_on_success (h : Host) (w w' : Cycle) (c : fileFDStatCollector)
    (hsame : w'.osOpen = w.osOpen) :
    ((Update h w' c).out = .ok () ↔ (Update h w c).out = .ok ()) ∧
      ((∃ e, (Update h w' c).out = .err e) ↔ ∃ e, (Update h w c).out = .err e) ∧
      (∀ p, (Update h w' c).out = .panic p ↔ (Update h w c).out = .panic p) ∧
      ((Update h w c).out = .ok () →
        (∀ name, (Update h w' c).c.metrics.get? name = (Update h w c).c.metrics.get? name) ∧
        (Update h w' c).c.metrics.Perm (Update h w c).c.metrics ∧
        (Update h w' c).sent.Perm (Update h w c).sent) := by
  cases hs : getFileFDStats w.osOpen (h.procFilePath "sys/fs/file-nr") with
  | err e =>
    have hs' : getFileFDStats w'.osOpen (h.procFilePath "sys/fs/file-nr") = .err e := by
      rw [hsame]; exact hs
    rw [Update_of_err h w c e hs, Update_of_err h w' c e hs']
    simp
  | panic p =>
    have hs' : getFileFDStats w'.osOpen (h.procFilePath "sys/fs/file-nr") = .panic p := by
      rw [hsame]; exact hs
    rw [Update_of_panic h w c p hs, Update_of_panic h w' c p hs']
    simp
  | ok stat =>
    obtain ⟨f0, f2, rfl⟩ := getFileFDStats_ok _ _ stat hs
    have hs' : getFileFDStats w'.osOpen (h.procFilePath "sys/fs/file-nr")
        = .ok [("allocated", f0), ("maximum", f2)] := by rw [hsame]; exact hs
    rw [Update_of_stat h w c _ hs, Update_of_stat h w' c _ hs']
    have hiff := rangeStat_ok_order h w.statOrder w'.statOrder f0 f2
      { c := c, made := [] } { c := c, made := [] }
    refine ⟨hiff, ?_, ?_, ?_⟩
    · rw [rangeStat_err_iff, rangeStat_err_iff, Ne, Ne, hiff]
    · intro p
      constructor
      · intro hp
        exact absurd hp (rangeStat_no_panic h _ _ p)
      · intro hp
        exact absurd hp (rangeStat_no_panic h _ _ p)
    · intro hok
      have hok0 : (rangeStat h (w.statOrder.visit [("allocated", f0), ("maximum", f2)])
          { c := c, made := [] }).1 = .ok () := hok
      have hok' := hiff.2 hok0
      obtain ⟨t1, t2⟩ := rangeStat_two_orders h w.statOrder w'.statOrder f0 f2
        { c := c, made := [] } hok
      refine ⟨t1, t2, ?_⟩
      simp only [rangeCollect]
      rw [if_pos hok0, if_pos hok']
      exact (((w'.metricOrder.perm _).trans t2).trans (w.metricOrder.perm _).symm).map Prod.snd

/-- C16, amended, on the line `1234 TAB 0 TAB 9876` and an empty registry, with the
loops in the two orders. -/
theorem Update_order_on_success_witness :
    (cycleReversed "1234\t0\t9876\n").osOpen = (cycleOf "1234\t0\t9876\n").osOpen ∧
    (Update nodeHost (cycleOf "1234\t0\t9876\n") { metrics := [] }).out = .ok () ∧
    (∀ name,
        (Update nodeHost (cycleReversed "1234\t0\t9876\n") { metrics := [] }).c.metrics.get? name
          = (Update nodeHost (cycleOf "1234\t0\t9876\n") { metrics := [] }).c.metrics.get? name) ∧
    (Update nodeHost (cycleReversed "1234\t0\t9876\n") { metrics := [] }).sent.Perm
      (Update nodeHost (cycleOf "1234\t0\t9876\n") { metrics := [] }).sent :=
  ⟨rfl, by decide,
    ((Update_order_on_success nodeHost (cycleOf "1234\t0\t9876\n")
      (cycleReversed "1234\t0\t9876\n") { metrics := [] } rfl).2.2.2 (by decide)).1,
    ((Update_order_on_success nodeHost (cycleOf "1234\t0\t9876\n")
      (cycleReversed "1234\t0\t9876\n") { metrics := [] } rfl).2.2.2 (by decide)).2.2⟩

/-! ## The registry over time and failed cycles: claims C17 to C19 -/

/-- C17. A collector that a program can hold, new or after any calls of `Update` on any
files, has names among `allocated` and `maximum` only, so at most two gauges. -/
theorem Reachable_names (h : Host) (c : fileFDStatCollector) (hreach : Reachable h c) :
    (∀ k ∈ GoMap.keys c.metrics, k = "allocated" ∨ k = "maximum") ∧
      c.metrics.length ≤ 2 := by
  obtain ⟨hnd, hkeys, _⟩ := Reachable.invariant h c hreach
  refine ⟨hkeys, ?_⟩
  have hsub : GoMap.keys c.metrics ⊆ ["allocated", "maximum"] := by
    intro k hk
    rcases hkeys k hk with rfl | rfl <;> simp
  have hle := (hnd.subperm hsub).length_le
  simpa [GoMap.keys] using hle

/-- C17 on the collector after a call that failed and a call that succeeded. -/
theorem Reachable_names_witness :
    Reachable nodeHost
        (Update nodeHost (cycleOf "1234\t0\t9876\n")
          (Update nodeHost (cycleOf "abc\t0\t1\n") { metrics := [] }).c).c ∧
    ((∀ k ∈ GoMap.keys
          (Update nodeHost (cycleOf "1234\t0\t9876\n")
            (Update nodeHost (cycleOf "abc\t0\t1\n") { metrics := [] }).c).c.metrics,
        k = "allocated" ∨ k = "maximum") ∧
      (Update nodeHost (cycleOf "1234\t0\t9876\n")
          (Update nodeHost (cycleOf "abc\t0\t1\n") { metrics := [] }).c).c.metrics.length ≤ 2) :=
  ⟨Reachable.update _ _ (Reachable.update _ _ (Reachable.new _ rfl)),
    Reachable_names nodeHost _
      (Reachable.update _ _ (Reachable.update _ _ (Reachable.new _ rfl)))⟩

/-- A call of `Update` that does not succeed sends nothing. -/
theorem Update_sent_of_not_ok (h : Host) (w : Cycle) (c : fileFDStatCollector)
    (hout : (Update h w c).out ≠ .ok ()) : (Update h w c).sent = [] := by
  cases hs : getFileFDStats w.osOpen (h.procFilePath "sys/fs/file-nr") with
  | err e => rw [Update_of_err h w c e hs]
  | panic p => rw [Update_of_panic h w c p hs]
  | ok stat =>
    rw [Update_of_stat h w c stat hs] at hout ⊢
    exact if_neg hout

/-- C18. `Update` sends gauges on the channel only when it succeeds. When a text of the
mapping of the reader does not parse as a float64, `Update` returns an error and sends
nothing, whatever the registry held and whatever the loop did before it failed; and any
call that does not succeed sends nothing. -/
theorem Update_sends_only_on_success (h : Host) (w : Cycle) (c : fileFDStatCollector) :
    (∀ stat x e, getFileFDStats w.osOpen (h.procFilePath "sys/fs/file-nr") = .ok stat →
        x ∈ stat → h.ParseFloat x.2 = .error e →
        (∃ e', (Update h w c).out = .err e') ∧ (Update h w c).sent = []) ∧
      ((Update h w c).out ≠ .ok () → (Update h w c).sent = []) := by
  refine ⟨?_, Update_sent_of_not_ok h w c⟩
  intro stat x e hs hx he
  have hnok : (rangeStat h (w.statOrder.visit stat) { c := c, made := [] }).1 ≠ .ok () := by
    rw [Ne, rangeStat_ok_iff]
    intro hall
    obtain ⟨v, hv⟩ := hall x ((w.statOrder.perm stat).mem_iff.2 hx)
    rw [he] at hv
    cases hv
  have hout : (Update h w c).out ≠ .ok () := by
    rw [Update_of_stat h w c stat hs]
    exact hnok
  refine ⟨?_, Update_sent_of_not_ok h w c hout⟩
  rw [Update_of_stat h w c stat hs]
  exact (rangeStat_err_iff h _ _).2 hnok

/-- C18 on a registry that holds both gauges from an earlier cycle, and the line
`5 TAB 0 TAB abc`: the gauge `allocated` is set to 5.0 in the cycle, the call fails,
and nothing is sent. -/
theorem Update_sends_only_on_success_witness :
    (Update nodeHost (cycleOf "5\t0\tabc\n")
        (Update nodeHost (cycleOf "1234\t0\t9876\n") { metrics := [] }).c).c.metrics.get?
        "allocated" = some ⟨gaugeOpts nodeHost "allocated", ⟨0x4014000000000000⟩⟩ ∧
    ((∃ e', (Update nodeHost (cycleOf "5\t0\tabc\n")
        (Update nodeHost (cycleOf "1234\t0\t9876\n") { metrics := [] }).c).out = .err e') ∧
      (Update nodeHost (cycleOf "5\t0\tabc\n")
        (Update nodeHost (cycleOf "1234\t0\t9876\n") { metrics := [] }).c).sent = []) :=
  ⟨by decide,
    (Update_sends_only_on_success nodeHost (cycleOf "5\t0\tabc\n")
      (Update nodeHost (cycleOf "1234\t0\t9876\n") { metrics := [] }).c).1
      [("allocated", "5"), ("maximum", "abc")] ("maximum", "abc")
      (numError "abc" "invalid syntax") (by decide) (by decide) (by decide)⟩

/-- The first loop, when it reaches a name without entry whose text does not parse: it
makes the gauge of the name and ends by the error of the text. -/
theorem rangeStat_reach_failure (h : Host) (pre post : List (String × String))
    (n t : String) (e : GoError) (s : LoopState)
    (hpre : ∀ x ∈ pre, ∃ v, h.ParseFloat x.2 = .ok v) (hn : n ∉ pre.map Prod.fst)
    (hnone : s.c.metrics.get? n = none) (hbad : h.ParseFloat t = .error e) :
    (rangeStat h (pre ++ (n, t) :: post) s).1 = .err (errInvalidValue t e) ∧
      (rangeStat h (pre ++ (n, t) :: post) s).2.c.metrics.get? n
        = some (NewGauge (gaugeOpts h n)) ∧
      gaugeOpts h n ∈ (rangeStat h (pre ++ (n, t) :: post) s).2.made := by
  induction pre generalizing s with
  | nil =>
    rw [List.nil_append, rangeStat_cons_error h n t post s e hbad]
    refine ⟨rfl, ?_, ?_⟩
    · simp [ensureGauge_get?_self, hnone]
    · simp [ensureGauge_made, hnone]
  | cons x rest ih =>
    obtain ⟨n₀, t₀⟩ := x
    obtain ⟨v, hv⟩ := hpre (n₀, t₀) (List.mem_cons_self _ _)
    simp only [List.map_cons, List.mem_cons, not_or] at hn
    rw [List.cons_append, rangeStat_cons_ok h n₀ t₀ _ s v hv]
    apply ih _ (fun x hx => hpre x (List.mem_cons_of_mem _ hx)) hn.2
    rw [storeGauge_get?_ne h n₀ n v s hn.1]
    exact hnone

/-- C19. A failed cycle can grow the registry. When the loop of `Update` reaches a name
that has no entry in the registry and whose text does not parse as a float64 (the texts
visited before it parse), `Update` makes a gauge for the name, fails with the error of
that text and sends nothing; afterwards the registry has for that name the gauge as
`prometheus.NewGauge` made it, with the value zero. -/
theorem Update_failed_cycle_grows (h : Host) (w : Cycle) (c : fileFDStatCollector)
    (stat : GoMap String) (pre post : List (String × String)) (n t : String) (e : GoError)
    (hstat : getFileFDStats w.osOpen (h.procFilePath "sys/fs/file-nr") = .ok stat)
    (hvisit : w.statOrder.visit stat = pre ++ (n, t) :: post)
    (hpre : ∀ x ∈ pre, ∃ v, h.ParseFloat x.2 = .ok v)
    (hnone : c.metrics.get? n = none) (hbad : h.ParseFloat t = .error e) :
    (Update h w c).out = .err (errInvalidValue t e) ∧
      (Update h w c).c.metrics.get? n = some (NewGauge (gaugeOpts h n)) ∧
      (NewGauge (gaugeOpts h n)).value = Float64.zero ∧
      gaugeOpts h n ∈ (Update h w c).made ∧ (Update h w c).sent = [] := by
  obtain ⟨f0, f2, rfl⟩ := getFileFDStats_ok _ _ stat hstat
  have hnd := visit_stat_nodup w.statOrder f0 f2
  rw [hvisit, List.map_append, List.map_cons] at hnd
  have hn : n ∉ pre.map Prod.fst := by
    intro hin
    exact (List.nodup_append.1 hnd).2.2 hin (List.mem_cons_self _ _)
  obtain ⟨r1, r2, r3⟩ := rangeStat_reach_failure h pre post n t e { c := c, made := [] }
    hpre hn hnone hbad
  rw [Update_of_stat h w c _ hstat, hvisit]
  refine ⟨r1, r2, rfl, r3, ?_⟩
  simp [r1]

/-- C19 on an empty registry and the line `1234 TAB 0 TAB abc`, visited first to last:
after the failed call the registry has the gauge `maximum`, at zero. -/
theorem Update_failed_cycle_grows_witness :
    getFileFDStats (cycleOf "1234\t0\tabc\n").osOpen (nodeHost.procFilePath "sys/fs/file-nr")
        = .ok [("allocated", "1234"), ("maximum", "abc")] ∧
    nodeHost.ParseFloat "abc" = .error (numError "abc" "invalid syntax") ∧
    ((Update nodeHost (cycleOf "1234\t0\tabc\n") { metrics := [] }).out
        = .err (errInvalidValue "abc" (numError "abc" "invalid syntax")) ∧
      (Update nodeHost (cycleOf "1234\t0\tabc\n") { metrics := [] }).c.metrics.get? "maximum"
        = some (NewGauge (gaugeOpts nodeHost "maximum")) ∧
      (NewGauge (gaugeOpts nodeHost "maximum")).value = Float64.zero ∧
      gaugeOpts nodeHost "maximum" ∈
        (Update nodeHost (cycleOf "1234\t0\tabc\n") { metrics := [] }).made ∧
      (Update nodeHost (cycleOf "1234\t0\tabc\n") { metrics := [] }).sent = []) :=
  ⟨by decide, by decide,
    Update_failed_cycle_grows nodeHost (cycleOf "1234\t0\tabc\n") { metrics := [] }
      [("allocated", "1234"), ("maximum", "abc")] [("allocated", "1234")] [] "maximum" "abc"
      (numError "abc" "invalid syntax") (by decide) rfl
      (by intro x hx; simp only [List.mem_singleton] at hx; subst hx; exact ⟨_, rfl⟩)
      rfl (by decide)⟩

/-! ## The first line of the input: claims C1, C3 and C5 -/

/-- A text has at least as many bytes as characters. -/
theorem length_le_utf8ByteSize (s : String) : s.data.length ≤ s.utf8ByteSize := by
  obtain ⟨l⟩ := s
  simp only [String.utf8ByteSize_mk]
  induction l with
  | nil => simp
  | cons c cs ih =>
    have hpos := Char.utf8Size_pos c
    simp only [List.length_cons, String.utf8Len_cons]
    omega

/-- The first scan of an input whose text before the first newline, or whose whole text,
is `L`. -/
theorem Scan_of_line (L rest data : String) (e : Option GoError) (hL : '\n' ∉ L.data)
    (hdata : data = L ∨ data = L ++ "\n" ++ rest) :
    Scan { data := data, err := e } =
      if MaxScanTokenSize ≤ L.utf8ByteSize then ⟨"", some ErrTooLong⟩
      else ⟨String.mk (dropCR L.data), e⟩ := by
  have hpre : data.data.takeWhile (fun c => c ≠ '\n') = L.data := by
    rcases hdata with rfl | rfl
    · exact takeWhile_whole _ hL
    · have hd : (L ++ "\n" ++ rest).data = L.data ++ '\n' :: rest.data := by
        simp [String.data_append]
      rw [hd]
      exact takeWhile_line _ _ hL
  simp only [Scan, hpre]

/-- A first line of `MaxScanTokenSize` bytes or more makes `parseFileFDStats` panic,
whatever its fields: the scan gives no token. -/
theorem parseFileFDStats_of_long_line (L rest data : String) (e : Option GoError)
    (fileName : String) (hL : '\n' ∉ L.data) (hdata : data = L ∨ data = L ++ "\n" ++ rest)
    (hlong : MaxScanTokenSize ≤ L.utf8ByteSize) :
    parseFileFDStats { data := data, err := e } fileName = .panic (.indexOutOfRange 2 1) := by
  have hs : (Scan { data := data, err := e }).Text = "" := by
    rw [Scan_of_line L rest data e hL hdata, if_pos hlong]
    rfl
  rw [parseFileFDStats_eq, hs]
  rfl

/-- The text of the first scan for a first line shorter than `MaxScanTokenSize` bytes:
the line without one trailing carriage return. -/
theorem Scan_Text_of_short_line (L rest data : String) (e : Option GoError)
    (hL : '\n' ∉ L.data) (hdata : data = L ∨ data = L ++ "\n" ++ rest)
    (hshort : L.utf8ByteSize < MaxScanTokenSize) :
    (Scan { data := data, err := e }).Text = String.mk (dropCR L.data) := by
  rw [Scan_of_line L rest data e hL hdata, if_neg (Nat.not_le.2 hshort)]
  rfl

/-- A line of `n` digits `9` after `head`, for `head` without newline, has no newline. -/
theorem no_newline_nines (head : String) (n : Nat) (hh : '\n' ∉ head.data) :
    '\n' ∉ (head ++ String.mk (List.replicate n '9')).data := by
  simp only [String.data_append, List.mem_append, List.mem_replicate, not_or]
  exact ⟨hh, fun hc => absurd hc.2 (by decide)⟩

/-- The number of characters of a text followed by `n` digits `9`. -/
theorem length_nines (head : String) (n : Nat) :
    (head ++ String.mk (List.replicate n '9')).data.length = head.data.length + n := by
  simp [String.data_append]

/-- C1 as stated fails: the first line `1 TAB 0 TAB 99...9` with 65532 digits `9` has
three tab-separated fields and 65536 bytes, more than the scanner holds, and
`parseFileFDStats` returns no mapping on it: the scan gives no token and `line[2]`
panics. -/
theorem parseFileFDStats_long_line_panics :
    Split ("1" ++ "\t" ++ "0" ++ "\t" ++ String.mk (List.replicate 65532 '9')) '\t'
        = ["1", "0", String.mk (List.replicate 65532 '9')] ∧
      parseFileFDStats
          { data := "1" ++ "\t" ++ "0" ++ "\t" ++ String.mk (List.replicate 65532 '9') ++ "\n" ++ ""
            err := none } "file-nr"
        = .panic (.indexOutOfRange 2 1) := by
  have hno : '\n' ∉ ("1" ++ "\t" ++ "0" ++ "\t" ++ String.mk (List.replicate 65532 '9')).data :=
    no_newline_nines ("1" ++ "\t" ++ "0" ++ "\t") 65532 (by decide)
  refine ⟨Split_three "1" "0" _ (by decide) (by decide) ?_, ?_⟩
  · simp only [List.mem_replicate, not_and]
    intro _ hc
    exact absurd hc (by decide)
  · apply parseFileFDStats_of_long_line _ "" _ none "file-nr" hno (Or.inr rfl)
    refine Nat.le_trans ?_ (length_le_utf8ByteSize _)
    have h4 : ("1" ++ "\t" ++ "0" ++ "\t").data.length = 4 := by decide
    rw [length_nines, h4]
    decide

/-- C1, amended. Take as first line of the input the text before its first newline, or
the whole input when it has none, without one trailing carriage return. When that text
has fewer than 65536 bytes, the carriage return counted, and at least three
tab-separated fields, `parseFileFDStats` returns a mapping whose names are exactly
`allocated` and `maximum`, with field 0 under `allocated` and field 2 under `maximum`.
Nothing is asked of field 1 or of the fields after field 2, and the fields need not be
numbers. -/
theorem parseFileFDStats_three_fields (L rest data : String) (e : Option GoError)
    (fileName : String) (hL : '\n' ∉ L.data) (hdata : data = L ∨ data = L ++ "\n" ++ rest)
    (hshort : L.utf8ByteSize < MaxScanTokenSize)
    (hlen : 3 ≤ (Split (String.mk (dropCR L.data)) '\t').length) :
    ∃ f0 f2, (Split (String.mk (dropCR L.data)) '\t').get? 0 = some f0 ∧
      (Split (String.mk (dropCR L.data)) '\t').get? 2 = some f2 ∧
      ∃ m, parseFileFDStats { data := data, err := e } fileName = .ok m ∧
        GoMap.keys m = ["allocated", "maximum"] ∧
        m.get? "allocated" = some f0 ∧ m.get? "maximum" = some f2 := by
  rw [parseFileFDStats_eq, Scan_Text_of_short_line L rest data e hL hdata hshort]
  generalize Split (String.mk (dropCR L.data)) '\t' = line at hlen
  match line, hlen with
  | f0 :: f1 :: f2 :: tl, _ =>
    exact ⟨f0, f2, rfl, rfl, [("allocated", f0), ("maximum", f2)], rfl, rfl, rfl, rfl⟩

/-- C1, amended, on a first line of four fields whose field 1 is not a number, ended by
a carriage return and a newline and followed by a second line: field 0 is `12` and
field 2 is `x34`. -/
theorem parseFileFDStats_three_fields_witness :
    '\n' ∉ "12\tjunk\tx34\tmore\r".data ∧
    "12\tjunk\tx34\tmore\r".utf8ByteSize < MaxScanTokenSize ∧
    3 ≤ (Split (String.mk (dropCR "12\tjunk\tx34\tmore\r".data)) '\t').length ∧
    ∃ f0 f2,
      (Split (String.mk (dropCR "12\tjunk\tx34\tmore\r".data)) '\t').get? 0 = some f0 ∧
      (Split (String.mk (dropCR "12\tjunk\tx34\tmore\r".data)) '\t').get? 2 = some f2 ∧
      ∃ m, parseFileFDStats { data := "12\tjunk\tx34\tmore\r" ++ "\n" ++ "next", err := none }
          "file-nr" = .ok m ∧
        GoMap.keys m = ["allocated", "maximum"] ∧
        m.get? "allocated" = some f0 ∧ m.get? "maximum" = some f2 :=
  ⟨by decide, by decide, by decide,
    parseFileFDStats_three_fields "12\tjunk\tx34\tmore\r" "next" _ none "file-nr" (by decide)
      (Or.inr rfl) (by decide) (by decide)⟩

/-- What `getFileFDStats` returns for a file that opens and whose first line is shorter
than `MaxScanTokenSize` bytes and has the fields `f0` and `f2` at 0 and 2. -/
theorem getFileFDStats_of_short_line (osOpen : String → Except GoError Reader)
    (fileName : String) (L rest data : String) (e : Option GoError) (f0 f2 : String)
    (hopen : osOpen fileName = .ok { data := data, err := e })
    (hL : '\n' ∉ L.data) (hdata : data = L ∨ data = L ++ "\n" ++ rest)
    (hshort : L.utf8ByteSize < MaxScanTokenSize)
    (hf0 : (Split (String.mk (dropCR L.data)) '\t').get? 0 = some f0)
    (hf2 : (Split (String.mk (dropCR L.data)) '\t').get? 2 = some f2) :
    getFileFDStats osOpen fileName = .ok [("allocated", f0), ("maximum", f2)] := by
  rw [getFileFDStats_of_ok _ _ _ hopen, parseFileFDStats_eq,
    Scan_Text_of_short_line L rest data e hL hdata hshort, hf0, hf2]

/-- What `getFileFDStats` does for a file that opens and whose first line has
`MaxScanTokenSize` bytes or more. -/
theorem getFileFDStats_of_long_line (osOpen : String → Except GoError Reader)
    (fileName : String) (L rest data : String) (e : Option GoError)
    (hopen : osOpen fileName = .ok { data := data, err := e })
    (hL : '\n' ∉ L.data) (hdata : data = L ∨ data = L ++ "\n" ++ rest)
    (hlong : MaxScanTokenSize ≤ L.utf8ByteSize) :
    getFileFDStats osOpen fileName = .panic (.indexOutOfRange 2 1) := by
  rw [getFileFDStats_of_ok _ _ _ hopen]
  exact parseFileFDStats_of_long_line L rest data e fileName hL hdata hlong

/-- The first loop, when it does not end normally: it ends by the error of the first
text it visits that does not parse. -/
theorem rangeStat_first_failure (h : Host) (l : List (String × String)) (s : LoopState)
    (hnok : (rangeStat h l s).1 ≠ .ok ()) :
    ∃ pre n text post e, l = pre ++ (n, text) :: post ∧
      (∀ x ∈ pre, ∃ v, h.ParseFloat x.2 = .ok v) ∧ h.ParseFloat text = .error e ∧
      (rangeStat h l s).1 = .err (errInvalidValue text e) := by
  induction l generalizing s with
  | nil => simp [rangeStat_nil] at hnok
  | cons x rest ih =>
    obtain ⟨n, t⟩ := x
    cases hp : h.ParseFloat t with
    | error e =>
      refine ⟨[], n, t, rest, e, rfl, by simp, hp, ?_⟩
      rw [rangeStat_cons_error h n t rest s e hp]
    | ok v =>
      rw [rangeStat_cons_ok h n t rest s v hp] at hnok ⊢
      obtain ⟨pre, n', t', post, e, h1, h2, h3, h4⟩ := ih _ hnok
      refine ⟨(n, t) :: pre, n', t', post, e, by rw [h1]; rfl, ?_, h3, h4⟩
      intro x hx
      rcases List.mem_cons.1 hx with rfl | hx
      · exact ⟨v, hp⟩
      · exact h2 x hx

/-- C3 as stated fails: the first line `1 TAB 00...0 TAB 2` with 65536 digits `0` is
`f0 TAB f1 TAB f2` with `f0 = 1` and `f2 = 2`, which parse, and `Update` does not
return on it: the line is longer than the scanner holds, the scan gives no token and
`line[2]` panics. -/
theorem Update_long_line_panics :
    nodeHost.ParseFloat "1" = .ok ⟨0x3FF0000000000000⟩ ∧
      nodeHost.ParseFloat "2" = .ok ⟨0x4000000000000000⟩ ∧
      (Update nodeHost
          (cycleOf ("1" ++ "\t" ++ String.mk (List.replicate 65536 '0') ++ "\t" ++ "2" ++ "\n" ++ ""))
          { metrics := [] }).out = .panic (.indexOutOfRange 2 1) := by
  refine ⟨by decide, by decide, ?_⟩
  have hno : '\n' ∉
      ("1" ++ "\t" ++ String.mk (List.replicate 65536 '0') ++ "\t" ++ "2").data := by
    simp only [String.data_append, List.mem_append, List.mem_replicate, not_or]
    exact ⟨⟨⟨⟨by decide, by decide⟩, fun hc => absurd hc.2 (by decide)⟩, by decide⟩, by decide⟩
  have hlong : MaxScanTokenSize ≤
      ("1" ++ "\t" ++ String.mk (List.replicate 65536 '0') ++ "\t" ++ "2").utf8ByteSize := by
    refine Nat.le_trans ?_ (length_le_utf8ByteSize _)
    simp only [String.data_append, List.length_append, List.length_replicate]
    have h1 : ("1" : String).data.length = 1 := by decide
    have h2 : ("\t" : String).data.length = 1 := by decide
    have h3 : ("2" : String).data.length = 1 := by decide
    rw [h1, h2, h3]
    decide
  rw [Update_of_panic nodeHost _ _ _
    (getFileFDStats_of_long_line _ _ _ "" _ none rfl hno (Or.inr rfl) hlong)]

/-- C3, amended. Take as first line of the file the text before its first newline, or
the whole text when it has none, without one trailing carriage return. When the file
opens, that line has fewer than 65536 bytes, the carriage return counted, and is
`f0 TAB f1 TAB f2` with `f0` and `f2` parsing as the float64 values `v0` and `v2`,
`Update` returns no error, whatever the collector held; afterwards the gauge
`allocated` holds `v0`, the gauge `maximum` holds `v2`, and both were sent on the
channel. -/
theorem Update_sets_both_gauges (h : Host) (w : Cycle) (c : fileFDStatCollector)
    (L rest data : String) (e : Option GoError) (f0 f1 f2 : String) (v0 v2 : Float64)
    (hopen : w.osOpen (h.procFilePath "sys/fs/file-nr") = .ok { data := data, err := e })
    (hL : '\n' ∉ L.data) (hdata : data = L ∨ data = L ++ "\n" ++ rest)
    (hshort : L.utf8ByteSize < MaxScanTokenSize)
    (hline : String.mk (dropCR L.data) = f0 ++ "\t" ++ f1 ++ "\t" ++ f2)
    (h0 : '\t' ∉ f0.data) (h1 : '\t' ∉ f1.data) (h2 : '\t' ∉ f2.data)
    (hv0 : h.ParseFloat f0 = .ok v0) (hv2 : h.ParseFloat f2 = .ok v2) :
    (Update h w c).out = .ok () ∧
      ∃ ga gm, (Update h w c).c.metrics.get? "allocated" = some ga ∧ ga.value = v0 ∧
        (Update h w c).c.metrics.get? "maximum" = some gm ∧ gm.value = v2 ∧
        ga ∈ (Update h w c).sent ∧ gm ∈ (Update h w c).sent := by
  have hsplit : Split (String.mk (dropCR L.data)) '\t' = [f0, f1, f2] := by
    rw [hline]
    exact Split_three f0 f1 f2 h0 h1 h2
  have hstat : getFileFDStats w.osOpen (h.procFilePath "sys/fs/file-nr")
      = .ok [("allocated", f0), ("maximum", f2)] :=
    getFileFDStats_of_short_line _ _ L rest data e f0 f2 hopen hL hdata hshort
      (by rw [hsplit]; rfl) (by rw [hsplit]; rfl)
  have hok : (rangeStat h (w.statOrder.visit [("allocated", f0), ("maximum", f2)])
      { c := c, made := [] }).1 = .ok () := by
    rw [rangeStat_ok_iff]
    intro x hx
    rcases (visit_stat_mem w.statOrder f0 f2 x).1 hx with rfl | rfl
    · exact ⟨v0, hv0⟩
    · exact ⟨v2, hv2⟩
  have hnd := visit_stat_nodup w.statOrder f0 f2
  obtain ⟨ga, ha1, ha2⟩ := rangeStat_get?_visited h _ _ hnd hok "allocated" f0
    ((visit_stat_mem w.statOrder f0 f2 _).2 (Or.inl rfl))
  obtain ⟨gm, hm1, hm2⟩ := rangeStat_get?_visited h _ _ hnd hok "maximum" f2
    ((visit_stat_mem w.statOrder f0 f2 _).2 (Or.inr rfl))
  rw [hv0] at ha2
  rw [hv2] at hm2
  rw [Update_of_stat h w c _ hstat]
  simp only [hok, if_true]
  refine ⟨trivial, ga, gm, ha1, ?_, hm1, ?_, ?_, ?_⟩
  · injection ha2 with e; exact e.symm
  · injection hm2 with e; exact e.symm
  · exact List.mem_map.2 ⟨("allocated", ga),
      (w.metricOrder.perm _).mem_iff.2 (GoMap.mem_of_get? _ _ _ ha1), rfl⟩
  · exact List.mem_map.2 ⟨("maximum", gm),
      (w.metricOrder.perm _).mem_iff.2 (GoMap.mem_of_get? _ _ _ hm1), rfl⟩

/-- C3, amended, on the line `1234 TAB 0 TAB 9876`, ended by a newline, and an empty
collector: the gauges hold 1234.0 and 9876.0, whose bit patterns are
0x4093480000000000 and 0x40C34A0000000000. -/
theorem Update_sets_both_gauges_witness :
    (cycleOf ("1234\t0\t9876" ++ "\n" ++ "")).osOpen (nodeHost.procFilePath "sys/fs/file-nr")
        = .ok { data := "1234\t0\t9876" ++ "\n" ++ "", err := none } ∧
    '\n' ∉ "1234\t0\t9876".data ∧
    "1234\t0\t9876".utf8ByteSize < MaxScanTokenSize ∧
    String.mk (dropCR "1234\t0\t9876".data) = "1234" ++ "\t" ++ "0" ++ "\t" ++ "9876" ∧
    nodeHost.ParseFloat "1234" = .ok ⟨0x4093480000000000⟩ ∧
    nodeHost.ParseFloat "9876" = .ok ⟨0x40C34A0000000000⟩ ∧
    ((Update nodeHost (cycleOf ("1234\t0\t9876" ++ "\n" ++ "")) { metrics := [] }).out = .ok () ∧
      ∃ ga gm,
        (Update nodeHost (cycleOf ("1234\t0\t9876" ++ "\n" ++ "")) { metrics := [] }).c.metrics.get?
            "allocated" = some ga ∧
        ga.value = ⟨0x4093480000000000⟩ ∧
        (Update nodeHost (cycleOf ("1234\t0\t9876" ++ "\n" ++ "")) { metrics := [] }).c.metrics.get?
            "maximum" = some gm ∧
        gm.value = ⟨0x40C34A0000000000⟩ ∧
        ga ∈ (Update nodeHost (cycleOf ("1234\t0\t9876" ++ "\n" ++ "")) { metrics := [] }).sent ∧
        gm ∈ (Update nodeHost (cycleOf ("1234\t0\t9876" ++ "\n" ++ "")) { metrics := [] }).sent) :=
  ⟨rfl, by decide, by decide, by decide, by decide, by decide,
    Update_sets_both_gauges nodeHost (cycleOf ("1234\t0\t9876" ++ "\n" ++ "")) { metrics := [] }
      "1234\t0\t9876" "" _ none "1234" "0" "9876" _ _ rfl (by decide) (Or.inr rfl) (by decide)
      (by decide) (by decide) (by decide) (by decide) (by decide) (by decide)⟩

/-- C5 as stated fails, in three ways. On the line `abc TAB 0 TAB 9876` the text `abc`
stands in the field `allocated`, and the error of `Update` has the text `abc` in its
message but neither `allocated` nor `maximum`. On the line `abc`, whose field 0 does
not parse, `Update` returns no error: the line has no field 2 and `line[2]` panics. On
the line `abc TAB 0 TAB 99...9` with 65536 digits `9`, longer than the scanner holds,
`Update` panics in the same way. -/
theorem Update_error_lacks_field_name :
    (Split (Scan { data := "abc\t0\t9876\n", err := none }).Text '\t').get? 0 = some "abc" ∧
      nodeHost.ParseFloat "abc" = .error (numError "abc" "invalid syntax") ∧
      (Update nodeHost (cycleOf "abc\t0\t9876\n") { metrics := [] }).out
        = .err (errInvalidValue "abc" (numError "abc" "invalid syntax")) ∧
      Contains (errInvalidValue "abc" (numError "abc" "invalid syntax")).Error "abc" ∧
      ¬ Contains (errInvalidValue "abc" (numError "abc" "invalid syntax")).Error "allocated" ∧
      ¬ Contains (errInvalidValue "abc" (numError "abc" "invalid syntax")).Error "maximum" ∧
      (Update nodeHost (cycleOf "abc\n") { metrics := [] }).out
        = .panic (.indexOutOfRange 2 1) ∧
      (Update nodeHost
          (cycleOf ("abc" ++ "\t" ++ "0" ++ "\t" ++ String.mk (List.replicate 65536 '9') ++ "\n" ++ ""))
          { metrics := [] }).out = .panic (.indexOutOfRange 2 1) := by
  refine ⟨by decide, by decide, by decide, by decide, by decide, by decide, by decide, ?_⟩
  have hno : '\n' ∉
      ("abc" ++ "\t" ++ "0" ++ "\t" ++ String.mk (List.replicate 65536 '9')).data :=
    no_newline_nines ("abc" ++ "\t" ++ "0" ++ "\t") 65536 (by decide)
  have hlong : MaxScanTokenSize ≤
      ("abc" ++ "\t" ++ "0" ++ "\t" ++ String.mk (List.replicate 65536 '9')).utf8ByteSize := by
    refine Nat.le_trans ?_ (length_le_utf8ByteSize _)
    have h6 : ("abc" ++ "\t" ++ "0" ++ "\t").data.length = 6 := by decide
    rw [length_nines, h6]
    decide
  rw [Update_of_panic nodeHost _ _ _
    (getFileFDStats_of_long_line _ _ _ "" _ none rfl hno (Or.inr rfl) hlong)]

/-- C5, amended. Take as first line of the file the text before its first newline, or
the whole text when it has none, without one trailing carriage return. When the file
opens, that line has fewer than 65536 bytes, the carriage return counted, and at least
three tab-separated fields, and field 0 or field 2 does not parse as a float64,
`Update` fails with the error `invalid value TEXT in file-nr: ERR`. Here `TEXT` is the
first text that the loop visits and that does not parse, the loop visiting field 0
under `allocated` and field 2 under `maximum` in the order of its `range`, and `ERR` is
the error of `ParseFloat` on it. The message contains the offending text. -/
theorem Update_invalid_value (h : Host) (w : Cycle) (c : fileFDStatCollector)
    (L rest data : String) (e₀ : Option GoError) (f0 f2 : String)
    (hopen : w.osOpen (h.procFilePath "sys/fs/file-nr") = .ok { data := data, err := e₀ })
    (hL : '\n' ∉ L.data) (hdata : data = L ∨ data = L ++ "\n" ++ rest)
    (hshort : L.utf8ByteSize < MaxScanTokenSize)
    (hf0 : (Split (String.mk (dropCR L.data)) '\t').get? 0 = some f0)
    (hf2 : (Split (String.mk (dropCR L.data)) '\t').get? 2 = some f2)
    (hbad : (∃ e, h.ParseFloat f0 = .error e) ∨ (∃ e, h.ParseFloat f2 = .error e)) :
    ∃ pre n text post e,
      w.statOrder.visit [("allocated", f0), ("maximum", f2)] = pre ++ (n, text) :: post ∧
      (∀ x ∈ pre, ∃ v, h.ParseFloat x.2 = .ok v) ∧
      h.ParseFloat text = .error e ∧
      (Update h w c).out = .err ⟨"invalid value " ++ text ++ " in file-nr: " ++ e.Error⟩ ∧
      Contains ("invalid value " ++ text ++ " in file-nr: " ++ e.Error) text := by
  have hstat : getFileFDStats w.osOpen (h.procFilePath "sys/fs/file-nr")
      = .ok [("allocated", f0), ("maximum", f2)] :=
    getFileFDStats_of_short_line _ _ L rest data e₀ f0 f2 hopen hL hdata hshort hf0 hf2
  have hnok : (rangeStat h (w.statOrder.visit [("allocated", f0), ("maximum", f2)])
      { c := c, made := [] }).1 ≠ .ok () := by
    rw [Ne, rangeStat_ok_iff]
    intro hall
    rcases hbad with ⟨e, he⟩ | ⟨e, he⟩
    · obtain ⟨v, hv⟩ := hall ("allocated", f0)
        ((visit_stat_mem w.statOrder f0 f2 _).2 (Or.inl rfl))
      rw [he] at hv
      cases hv
    · obtain ⟨v, hv⟩ := hall ("maximum", f2)
        ((visit_stat_mem w.statOrder f0 f2 _).2 (Or.inr rfl))
      rw [he] at hv
      cases hv
  obtain ⟨pre, n, text, post, e, k1, k2, k3, k4⟩ := rangeStat_first_failure h _ _ hnok
  refine ⟨pre, n, text, post, e, k1, k2, k3, ?_, ?_⟩
  · rw [Update_of_stat h w c _ hstat]
    simp only [k4, errInvalidValue]
  · refine ⟨"invalid value ".data, (" in file-nr: " ++ e.Error).data, ?_⟩
    simp [String.data_append]

/-- C5, amended, on the line `xyz TAB 0 TAB abc` with the loop visiting `maximum`
first: the error is the one of `abc`. -/
theorem Update_invalid_value_witness :
    (cycleReversed ("xyz\t0\tabc" ++ "\n" ++ "")).osOpen (nodeHost.procFilePath "sys/fs/file-nr")
        = .ok { data := "xyz\t0\tabc" ++ "\n" ++ "", err := none } ∧
    ((∃ e, nodeHost.ParseFloat "xyz" = .error e) ∨ (∃ e, nodeHost.ParseFloat "abc" = .error e)) ∧
    ∃ pre n text post e,
      (cycleReversed ("xyz\t0\tabc" ++ "\n" ++ "")).statOrder.visit
          [("allocated", "xyz"), ("maximum", "abc")] = pre ++ (n, text) :: post ∧
      (∀ x ∈ pre, ∃ v, nodeHost.ParseFloat x.2 = .ok v) ∧
      nodeHost.ParseFloat text = .error e ∧
      (Update nodeHost (cycleReversed ("xyz\t0\tabc" ++ "\n" ++ "")) { metrics := [] }).out
        = .err ⟨"invalid value " ++ text ++ " in file-nr: " ++ e.Error⟩ ∧
      Contains ("invalid value " ++ text ++ " in file-nr: " ++ e.Error) text :=
  ⟨rfl, Or.inl ⟨_, rfl⟩,
    Update_invalid_value nodeHost (cycleReversed ("xyz\t0\tabc" ++ "\n" ++ "")) { metrics := [] }
      "xyz\t0\tabc" "" _ none "xyz" "abc" rfl (by decide) (Or.inr rfl) (by decide) (by decide)
      (by decide) (Or.inl ⟨_, rfl⟩)⟩

end FileFD
